import Mathlib

/-!
Verification development for the trail reconstruction engine of the
Philadelphia Hiking Trails repository.

The Python sources under `src/data/utils/` (`osm_utils.py`, `graph_utils.py`)
are shallowly embedded below:

* Python dicts are modelled as insertion-ordered association lists
  (`dictGet` / `dictInsert` / `dictUpdate` reproduce lookup, single-key
  assignment, and `dict.update` semantics: an assignment to an existing key
  keeps its position, a new key is appended).
* Edge attribute dictionaries mix the numeric bookkeeping keys
  (`distance`, `way_id`) with string-valued OSM tags, so attribute values are
  the sum type `AttrVal`.
* Machine floats are modelled as exact rationals; the haversine distance
  function (transcendental, irrelevant to every claim checked here) is a
  parameter of graph construction.
* `networkx` operations used by the source are embedded with their
  documented semantics: `Graph.add_edge` merges the new attributes into an
  existing edge dict, `nx.shortest_path` returns a minimum-weight simple
  path (`none` replacing the caught `NetworkXNoPath` exception).
-/

set_option maxHeartbeats 1000000

namespace Hiking

/-- Attribute values appearing in an edge attribute dictionary: the numeric
bookkeeping entries (`distance`, `way_id`) and string-valued OSM tags. -/
inductive AttrVal where
  | num (q : ℚ)
  | str (s : String)
deriving DecidableEq, Repr

/-- Lookup in an insertion-ordered association list (Python `dict.get`). -/
def dictGet {α β : Type} [DecidableEq α] (d : List (α × β)) (k : α) : Option β :=
  (d.find? (fun p => p.1 = k)).map (fun p => p.2)

/-- Single-key assignment `d[k] = v` on a Python dict: an existing key keeps
its position and gets the new value, a new key is appended at the end. -/
def dictInsert {α β : Type} [DecidableEq α] (d : List (α × β)) (k : α) (v : β) :
    List (α × β) :=
  if d.any (fun p => p.1 = k) then d.map (fun p => if p.1 = k then (k, v) else p)
  else d ++ [(k, v)]

/-- Python `d.update(kvs)`: assign every key/value pair of `kvs` in order. -/
def dictUpdate {α β : Type} [DecidableEq α] (d : List (α × β)) (kvs : List (α × β)) :
    List (α × β) :=
  kvs.foldl (fun acc p => dictInsert acc p.1 p.2) d

/-! ## Embedding of `src/data/utils/osm_utils.py` -/

/-- Lookup of an OSM tag (`tags.get(key)` on a string-valued dict). -/
def tagsGet (tags : List (String × String)) (k : String) : Option String :=
  dictGet tags k

/-- Python truthiness of `tags.get(key)`: `None` and the empty string are
falsy, every other string is truthy. -/
def truthyStr : Option String → Bool
  | some s => s != ""
  | none => false

/-- Python truthiness of the `length_miles` argument: `None` and `0` are
falsy (`if length_miles:` in the source), any nonzero number is truthy. -/
def truthyLen : Option ℚ → Bool
  | some l => l != 0
  | none => false

/-- Branch of `estimate_trail_difficulty` taken when the `sac_scale` tag is
truthy (`osm_utils.py`, lines 227-234). -/
def classify_sac (s : String) : String :=
  if s = "hiking" ∨ s = "mountain_hiking" then "Easy"
  else if s = "demanding_mountain_hiking" ∨ s = "alpine_hiking" then "Moderate"
  else "Hard"

/-- Branch of `estimate_trail_difficulty` taken when the `trail_visibility`
tag is truthy (`osm_utils.py`, lines 237-245). -/
def classify_visibility (s : String) : String :=
  if s = "excellent" ∨ s = "good" then "Easy"
  else if s = "intermediate" then "Moderate"
  else "Hard"

/-- Branch of `estimate_trail_difficulty` taken when the `surface` tag is
truthy (`osm_utils.py`, lines 248-258). -/
def classify_surface (s : String) : String :=
  if s = "paved" ∨ s = "asphalt" ∨ s = "concrete" ∨ s = "paving_stones" then "Easy"
  else if s = "gravel" ∨ s = "fine_gravel" ∨ s = "compacted" then "Easy"
  else if s = "dirt" ∨ s = "earth" ∨ s = "grass" then "Moderate"
  else "Hard"

/-- Length-based fallback of `estimate_trail_difficulty`
(`osm_utils.py`, lines 261-267). -/
def classify_length (l : ℚ) : String :=
  if l < 2 then "Easy" else if l < 5 then "Moderate" else "Hard"

/-- Embedding of `estimate_trail_difficulty(tags, length_miles)`
(`osm_utils.py`, lines 211-269): the rules fire in the fixed source order
sac_scale, trail_visibility, surface, length; the initial
`difficulty = 'Moderate'` default survives when no rule fires. -/
def estimate_trail_difficulty (tags : List (String × String))
    (length_miles : Option ℚ) : String :=
  if truthyStr (tagsGet tags "sac_scale") then
    classify_sac ((tagsGet tags "sac_scale").getD "")
  else if truthyStr (tagsGet tags "trail_visibility") then
    classify_visibility ((tagsGet tags "trail_visibility").getD "")
  else if truthyStr (tagsGet tags "surface") then
    classify_surface ((tagsGet tags "surface").getD "")
  else if truthyLen length_miles then
    classify_length (length_miles.getD 0)
  else "Moderate"

/-- Raw OSM way record: ordered node references plus tags
(as produced by `extract_ways_from_osm_data`). -/
structure WayData where
  nodes : List Nat
  tags : List (String × String)
deriving DecidableEq, Repr

/-- The `is_trail` predicate inside `filter_trail_ways`
(`osm_utils.py`, lines 101-117): highway in {path, footway, track},
or route == hiking, or foot == yes. -/
def is_trail_way (tags : List (String × String)) : Bool :=
  (tagsGet tags "highway" == some "path") ||
  (tagsGet tags "highway" == some "footway") ||
  (tagsGet tags "highway" == some "track") ||
  (tagsGet tags "route" == some "hiking") ||
  (tagsGet tags "foot" == some "yes")

/-- Embedding of `filter_trail_ways(ways)` (`osm_utils.py`, lines 86-123):
iterate the input mapping in order, keeping exactly the entries whose tags
satisfy `is_trail_way`, unchanged. -/
def filter_trail_ways (ways : List (Nat × WayData)) : List (Nat × WayData) :=
  ways.filter (fun p => is_trail_way p.2.tags)

/-! ## Embedding of `src/data/utils/graph_utils.py`

The `networkx.Graph` used by the source is modelled as an insertion-ordered
node dictionary plus an insertion-ordered edge list; each edge carries the
attribute dictionary produced by `G.add_edge(n1, n2, distance=.., way_id=..,
**tags)`.  `add_edge` on an existing node pair merges the new attributes into
the existing dictionary (networkx `datadict.update(attr)` semantics). -/

/-- Node payload stored by `create_graph_from_osm_elements`
(latitude, longitude and the raw node tags). -/
structure NodeData where
  lon : ℚ
  lat : ℚ
  tags : List (String × String)
deriving DecidableEq, Repr

/-- Edge record: the two incident node identities (in insertion orientation)
and the attribute dictionary. -/
structure Graph where
  nodes : List (Nat × NodeData)
  edges : List (Nat × Nat × List (String × AttrVal))
deriving DecidableEq, Repr

/-- Undirected match of an edge record against the node pair `(u, v)`. -/
def edgeMatches (u v : Nat) (e : Nat × Nat × List (String × AttrVal)) : Bool :=
  (e.1 == u && e.2.1 == v) || (e.1 == v && e.2.1 == u)

/-- Attribute dictionary of the edge `{u, v}` in an edge list
(`G[u][v]` in networkx; `none` when no such edge exists). -/
def getEdgeAttrs (es : List (Nat × Nat × List (String × AttrVal))) (u v : Nat) :
    Option (List (String × AttrVal)) :=
  (es.find? (edgeMatches u v)).map (fun e => e.2.2)

/-- Attribute list passed to `G.add_edge(n1, n2, distance=d, way_id=w,
**tags)`: the keyword arguments in order. -/
def edgeAttrList (d : ℚ) (wayId : Nat) (tags : List (String × String)) :
    List (String × AttrVal) :=
  ("distance", AttrVal.num d) :: ("way_id", AttrVal.num (wayId : ℚ)) ::
    tags.map (fun p => (p.1, AttrVal.str p.2))

/-- networkx `G.add_edge(u, v, **attr)` restricted to endpoints already in
the graph (the only way the source calls it, thanks to the membership guard
in `create_graph_from_osm_elements`): if the undirected pair already has an
edge, its attribute dictionary is updated in place with the new attributes;
otherwise a fresh edge with a fresh dictionary is appended. -/
def addEdge (G : Graph) (u v : Nat) (d : ℚ) (wayId : Nat)
    (tags : List (String × String)) : Graph :=
  if G.edges.any (edgeMatches u v) then
    { G with edges := G.edges.map (fun e =>
        if edgeMatches u v e then (e.1, e.2.1, dictUpdate e.2.2 (edgeAttrList d wayId tags))
        else e) }
  else
    { G with edges := G.edges ++ [(u, v, dictUpdate [] (edgeAttrList d wayId tags))] }

/-- Membership of a node identity in the graph (`n in G`). -/
def hasNode (G : Graph) (n : Nat) : Bool :=
  G.nodes.any (fun p => p.1 == n)

/-- Coordinates of a node (`G.nodes[n]["lon"], G.nodes[n]["lat"]`), defaulting
to the origin for identities outside the graph (the source would raise there;
every call below is guarded by membership). -/
def nodeGeo (G : Graph) (n : Nat) : ℚ × ℚ :=
  match dictGet G.nodes n with
  | some nd => (nd.lon, nd.lat)
  | none => (0, 0)

/-- Inner loop of `create_graph_from_osm_elements` for one way
(`graph_utils.py`, lines 33-59): walk consecutive node references, skip the
pair if either endpoint is missing from the graph, otherwise add the edge
with the haversine distance, the owning way identity and the way's tags. -/
def addWayEdges (dist : ℚ → ℚ → ℚ → ℚ → ℚ) (G : Graph) (wayId : Nat)
    (w : WayData) : Graph :=
  if w.nodes.length < 2 then G
  else (w.nodes.zip w.nodes.tail).foldl (fun G2 uv =>
    if hasNode G2 uv.1 && hasNode G2 uv.2 then
      addEdge G2 uv.1 uv.2
        (dist (nodeGeo G2 uv.1).1 (nodeGeo G2 uv.1).2 (nodeGeo G2 uv.2).1 (nodeGeo G2 uv.2).2)
        wayId w.tags
    else G2) G

/-- Embedding of `create_graph_from_osm_elements(nodes, ways)`
(`graph_utils.py`, lines 15-61).  The haversine function (floating-point
transcendental arithmetic, whose values no claim constrains) is passed as the
parameter `dist` in the source argument order lon1, lat1, lon2, lat2. -/
def create_graph_from_osm_elements (dist : ℚ → ℚ → ℚ → ℚ → ℚ)
    (nodes : List (Nat × NodeData)) (ways : List (Nat × WayData)) : Graph :=
  let G0 : Graph := { nodes := nodes.foldl (fun acc p => dictInsert acc p.1 p.2) [],
                      edges := [] }
  ways.foldl (fun G wp => addWayEdges dist G wp.1 wp.2) G0

/-- Degree of a node: number of incidences over the edge list (a self-loop
counts twice, as in networkx). -/
def degree (G : Graph) (n : Nat) : Nat :=
  G.edges.countP (fun e => e.1 == n) + G.edges.countP (fun e => e.2.1 == n)

/-- Embedding of `find_endpoints(G)` (`graph_utils.py`, lines 77-87): the
nodes of degree 1, in node insertion order. -/
def find_endpoints (G : Graph) : List Nat :=
  (G.nodes.map (fun p => p.1)).filter (fun n => degree G n == 1)

/-- Neighbours of `n` read off an edge list (used by the shortest-path
model; one entry per incident edge, in edge insertion order). -/
def neighborsIn (es : List (Nat × Nat × List (String × AttrVal))) (n : Nat) :
    List Nat :=
  es.filterMap (fun e =>
    if e.1 = n then some e.2.1 else if e.2.1 = n then some e.1 else none)

/-- Simple paths from `cur` to `t` avoiding `visited`, by exhaustive
depth-first enumeration with a fuel bound (any simple path has at most
`G.nodes.length` nodes, so the fuel used below is never exhausted). -/
def simplePathsAux (G : Graph) : Nat → Nat → Nat → List Nat → List (List Nat)
  | 0, _, _, _ => []
  | fuel + 1, t, cur, visited =>
    if cur = t then [[t]]
    else ((neighborsIn G.edges cur).filter
        (fun v => !((cur :: visited).contains v))).flatMap
      (fun v => (simplePathsAux G fuel t v (cur :: visited)).map (fun p => cur :: p))

/-- All simple paths from `s` to `t` in `G`. -/
def simplePaths (G : Graph) (s t : Nat) : List (List Nat) :=
  simplePathsAux G (G.nodes.length + 1) t s []

/-- Consecutive pairs of a path (`path[i], path[i+1]`). -/
def pathPairs (path : List Nat) : List (Nat × Nat) :=
  path.zip path.tail

/-- The `distance` attribute of the edge `{u, v}` in an edge list,
defaulting to 0 where the source would raise a KeyError. -/
def edgeDistanceL (es : List (Nat × Nat × List (String × AttrVal))) (u v : Nat) : ℚ :=
  match getEdgeAttrs es u v with
  | some attrs =>
    match dictGet attrs "distance" with
    | some (AttrVal.num q) => q
    | _ => 0
  | none => 0

/-- The `distance` attribute of the edge `{u, v}` (`G[u][v]['distance']`). -/
def edgeDistance (G : Graph) (u v : Nat) : ℚ :=
  edgeDistanceL G.edges u v

/-- Total weight of a path: sum of consecutive edge distances. -/
def pathWeight (G : Graph) (path : List Nat) : ℚ :=
  ((pathPairs path).map (fun uv => edgeDistance G uv.1 uv.2)).sum

/-- Model of `nx.shortest_path(G, start, end, weight='distance')`: a
minimum-weight simple path, the first enumerated one among ties; `none` when
`t` is unreachable from `s` (where networkx raises `NetworkXNoPath`). -/
def shortestPath (G : Graph) (s t : Nat) : Option (List Nat) :=
  (simplePaths G s t).foldl (fun best p =>
    match best with
    | none => some p
    | some b => if pathWeight G p < pathWeight G b then some p else some b) none

/-- Embedding of `find_path_between_endpoints(G, start, end)`
(`graph_utils.py`, lines 103-118): the shortest-path query with the
`NetworkXNoPath` exception caught and turned into `None`. -/
def find_path_between_endpoints (G : Graph) (s t : Nat) : Option (List Nat) :=
  shortestPath G s t

/-- Tag items of the edge `{u, v}` with the bookkeeping keys removed
(the dict comprehension at `graph_utils.py`, lines 144-145). -/
def edgeTagItems (G : Graph) (u v : Nat) : List (String × AttrVal) :=
  ((getEdgeAttrs G.edges u v).getD []).filter
    (fun p => !(p.1 == "distance" || p.1 == "way_id"))

/-- One step of tag collection (`graph_utils.py`, lines 146-149): append the
value `v` to the list stored under `k`, creating the entry on first sight. -/
def appendTagVal (acc : List (String × List AttrVal)) (k : String) (v : AttrVal) :
    List (String × List AttrVal) :=
  if acc.any (fun p => p.1 = k) then
    acc.map (fun p => if p.1 = k then (p.1, p.2 ++ [v]) else p)
  else acc ++ [(k, [v])]

/-- Collect a stream of key/value items into per-key value lists. -/
def collectStream (acc : List (String × List AttrVal))
    (s : List (String × AttrVal)) : List (String × List AttrVal) :=
  s.foldl (fun a p => appendTagVal a p.1 p.2) acc

/-- One step of value counting (`graph_utils.py`, lines 157-161): bump the
count of `v`, creating it at 0 on first sight. -/
def bumpCount (cs : List (AttrVal × Nat)) (v : AttrVal) : List (AttrVal × Nat) :=
  if cs.any (fun p => p.1 = v) then
    cs.map (fun p => if p.1 = v then (p.1, p.2 + 1) else p)
  else cs ++ [(v, 1)]

/-- Occurrence counts of the values in `vs`, keyed in first-seen order. -/
def valueCounts (vs : List AttrVal) : List (AttrVal × Nat) :=
  vs.foldl bumpCount []

/-- Python `max(value_counts.items(), key=lambda x: x[1])[0]`: the first item
with maximal count (later ties do not replace the current maximum). -/
def maxByCount (cs : List (AttrVal × Nat)) : Option AttrVal :=
  (cs.foldl (fun best p =>
    match best with
    | none => some p
    | some b => if b.2 < p.2 then some p else some b) none).map (fun p => p.1)

/-- Tag conflict resolution (`graph_utils.py`, lines 151-163): for each
collected key in first-seen order, keep the most common value, skipping keys
whose value list is empty (`if not v: continue`). -/
def resolveTags : List (String × List AttrVal) → List (String × AttrVal)
  | [] => []
  | (k, vs) :: rest =>
    if vs.isEmpty then resolveTags rest
    else
      match maxByCount (valueCounts vs) with
      | some v => (k, v) :: resolveTags rest
      | none => resolveTags rest

/-- Trail record built by `create_trail_from_path` (`graph_utils.py`, lines
165-181).  The `geometry` field of the source is the LineString over the same
coordinate list and is not modelled separately. -/
structure Trail where
  coordinates : List (ℚ × ℚ)
  length_miles : ℚ
  tags : List (String × AttrVal)
  name : Option AttrVal
  highway : Option AttrVal
deriving DecidableEq, Repr

/-- Embedding of `create_trail_from_path(G, path)` (`graph_utils.py`, lines
121-181): `None` for paths of fewer than 2 nodes (checked before any graph
access), otherwise coordinates in path order, length as the sum of edge
distances, and majority-resolved tags. -/
def create_trail_from_path (G : Graph) (path : List Nat) : Option Trail :=
  if path.length < 2 then none
  else
    let coordinates := path.map (fun n => nodeGeo G n)
    let length := ((pathPairs path).map (fun uv => edgeDistance G uv.1 uv.2)).sum
    let collected := (pathPairs path).foldl (fun acc uv =>
      (edgeTagItems G uv.1 uv.2).foldl (fun a p => appendTagVal a p.1 p.2) acc) []
    let resolved := resolveTags collected
    some { coordinates := coordinates
           length_miles := length
           tags := resolved
           name := dictGet resolved "name"
           highway := dictGet resolved "highway" }

/-- Insertion of one element into an ascending list (helper for the model of
Python `sorted`). -/
def insertAsc (x : Nat) : List Nat → List Nat
  | [] => [x]
  | y :: ys => if x ≤ y then x :: y :: ys else y :: insertAsc x ys

/-- Model of Python `sorted(endpoints)`: ascending insertion sort (on the
distinct node identities produced by `find_endpoints`, every correct
ascending sort yields the same list). -/
def sortAsc (l : List Nat) : List Nat :=
  l.foldr insertAsc []

/-- Unordered endpoint pairs `(i, j)` with `i < j` positionally, in the
iteration order of the double loop at `graph_utils.py`, lines 225-237. -/
def allPairs : List Nat → List (Nat × Nat)
  | [] => []
  | x :: xs => xs.map (fun y => (x, y)) ++ allPairs xs

/-- Body of the decomposition loop for one endpoint pair: find the shortest
path, build the trail, yield nothing when either step fails (`if path:` /
`if trail:` at `graph_utils.py`, lines 240-244; the empty-list truthiness
case of `if path:` is subsumed by `create_trail_from_path`'s `< 2` check). -/
def pairStep (G : Graph) (p : Nat × Nat) : Option Trail :=
  (find_path_between_endpoints G p.1 p.2).bind (fun q => create_trail_from_path G q)

/-- The pair loop of `decompose_complex_network` (`graph_utils.py`, lines
224-248), flattened over the pair list: before each pair the counter is
checked against the cap (both loops break once it is reached), then the
counter is incremented and the pair processed.  Returns the trails found and
the final value of `pair_counter`. -/
def processEndpointPairs (G : Graph) (maxPairs : Nat) :
    List (Nat × Nat) → Nat → List Trail × Nat
  | [], counter => ([], counter)
  | p :: rest, counter =>
    if maxPairs ≤ counter then ([], counter)
    else
      let tr := pairStep G p
      let res := processEndpointPairs G maxPairs rest (counter + 1)
      (tr.toList ++ res.1, res.2)

/-- Observable outcome of `decompose_complex_network`: the returned trails
plus the logging/loop observables of the source — the number of endpoint
pairs actually processed (the final `pair_counter`; the two-endpoint branch
processes its single pair), the total pair count `E*(E-1)//2`, and whether
the cap warning at line 215 fired. -/
structure DecomposeResult where
  trails : List Trail
  pairsProcessed : Nat
  totalPairs : Nat
  warned : Bool
deriving DecidableEq, Repr

/-- Embedding of `decompose_complex_network(G, max_pairs)` (`graph_utils.py`,
lines 184-251): with exactly two endpoints, one shortest-path query between
them (the cap is never consulted); otherwise the capped enumeration of sorted
endpoint pairs. -/
def decompose_complex_network (G : Graph) (maxPairs : Nat) : DecomposeResult :=
  let endpoints := find_endpoints G
  if endpoints.length = 2 then
    { trails := (pairStep G (endpoints.getD 0 0, endpoints.getD 1 0)).toList
      pairsProcessed := 1
      totalPairs := 1
      warned := false }
  else
    let total := endpoints.length * (endpoints.length - 1) / 2
    let res := processEndpointPairs G maxPairs (allPairs (sortAsc endpoints)) 0
    { trails := res.1
      pairsProcessed := res.2
      totalPairs := total
      warned := maxPairs < total }

/-! ## Chain components

A connected component that is a single chain of `N` nodes is represented by
`chainGraph c pos es`: node list `c` in chain order with coordinates given by
`pos`, and one edge between each pair of consecutive nodes carrying the
attribute dictionary a single `add_edge` call would produce (distance,
owning way identity, then the way's tags). -/

/-- Payload of one chain edge: distance, owning way identity, tags. -/
structure ChainEdgeInfo where
  w : ℚ
  wid : ℚ
  tags : List (String × AttrVal)
deriving DecidableEq, Repr

/-- Attribute dictionary of a chain edge. -/
def chainAttrs (e : ChainEdgeInfo) : List (String × AttrVal) :=
  ("distance", AttrVal.num e.w) :: ("way_id", AttrVal.num e.wid) :: e.tags

/-- Edges between consecutive nodes of a chain. -/
def chainEdges : List Nat → List ChainEdgeInfo →
    List (Nat × Nat × List (String × AttrVal))
  | a :: b :: rest, e :: es => (a, b, chainAttrs e) :: chainEdges (b :: rest) es
  | _, _ => []

/-- A chain-shaped component as a graph. -/
def chainGraph (c : List Nat) (pos : Nat → ℚ × ℚ) (es : List ChainEdgeInfo) :
    Graph :=
  { nodes := c.map (fun a => (a, { lon := (pos a).1, lat := (pos a).2, tags := [] }))
    edges := chainEdges c es }

/-- A concrete Y-shaped component: three endpoints 1, 2, 3 joined at the
junction 4. -/
def yGraph : Graph :=
  { nodes := [(1, { lon := 0, lat := 0, tags := [] }),
              (2, { lon := 1, lat := 0, tags := [] }),
              (3, { lon := 2, lat := 0, tags := [] }),
              (4, { lon := 3, lat := 0, tags := [] })],
    edges := [(1, 4, [("distance", AttrVal.num 1), ("way_id", AttrVal.num 10)]),
              (2, 4, [("distance", AttrVal.num 1), ("way_id", AttrVal.num 11)]),
              (3, 4, [("distance", AttrVal.num 1), ("way_id", AttrVal.num 12)])] }

/-- Value of the last assignment of key `k` performed by `d.update(kvs)`
(the last occurrence of `k` in `kvs`). -/
def lastVal {α β : Type} [DecidableEq α] (kvs : List (α × β)) (k : α) : Option β :=
  (kvs.reverse.find? (fun p => p.1 = k)).map (fun p => p.2)

/-! ## Tag conflict resolution: majority value, first-seen tie break -/

/-- The stream of non-bookkeeping tag items collected along a path, in path
order (edge by edge, each edge's dictionary in insertion order). -/
def edgeTagStream (G : Graph) (path : List Nat) : List (String × AttrVal) :=
  (pathPairs path).flatMap (fun uv => edgeTagItems G uv.1 uv.2)

/-- Values of a key among a key/value stream, in stream order. -/
def streamValues (s : List (String × AttrVal)) (k : String) : List AttrVal :=
  (s.filter (fun p => p.1 = k)).map (fun p => p.2)

/-- Values of tag key `k` on the edges along `path`, in path order. -/
def tagValues (G : Graph) (path : List Nat) (k : String) : List AttrVal :=
  streamValues (edgeTagStream G path) k

/-- The value of highest occurrence count among `vs`, ties broken in favour
of the value whose first occurrence comes earliest. -/
def IsMajorityFirst (vs : List AttrVal) (v : AttrVal) : Prop :=
  v ∈ vs ∧ (∀ w ∈ vs, vs.count w ≤ vs.count v) ∧
    (∀ w ∈ vs, vs.count w = vs.count v → vs.indexOf v ≤ vs.indexOf w)

/-- The distinct values of a list, each at its first occurrence. -/
def firstOccs : List AttrVal → List AttrVal
  | [] => []
  | v :: vs => v :: (firstOccs vs).filter (fun w => w ≠ v)

/-- Concrete four-node chain whose three edges carry surface values gravel,
gravel, dirt. -/
def gravelChain : Graph :=
  chainGraph [1, 2, 3, 4] (fun n => ((n : ℚ), 0))
    [⟨1, 10, [("surface", AttrVal.str "gravel")]⟩,
     ⟨1, 11, [("surface", AttrVal.str "gravel")]⟩,
     ⟨1, 12, [("surface", AttrVal.str "dirt")]⟩]

/-! ## Properties -/

lemma classify_sac_cases (s : String) :
    classify_sac s = "Easy" ∨ classify_sac s = "Moderate" ∨ classify_sac s = "Hard" := by
  unfold classify_sac
  split
  · exact Or.inl rfl
  split
  · exact Or.inr (Or.inl rfl)
  · exact Or.inr (Or.inr rfl)

lemma classify_visibility_cases (s : String) :
    classify_visibility s = "Easy" ∨ classify_visibility s = "Moderate" ∨
      classify_visibility s = "Hard" := by
  unfold classify_visibility
  split
  · exact Or.inl rfl
  split
  · exact Or.inr (Or.inl rfl)
  · exact Or.inr (Or.inr rfl)

lemma classify_surface_cases (s : String) :
    classify_surface s = "Easy" ∨ classify_surface s = "Moderate" ∨
      classify_surface s = "Hard" := by
  unfold classify_surface
  split
  · exact Or.inl rfl
  split
  · exact Or.inl rfl
  split
  · exact Or.inr (Or.inl rfl)
  · exact Or.inr (Or.inr rfl)

lemma classify_length_cases (l : ℚ) :
    classify_length l = "Easy" ∨ classify_length l = "Moderate" ∨
      classify_length l = "Hard" := by
  unfold classify_length
  split
  · exact Or.inl rfl
  split
  · exact Or.inr (Or.inl rfl)
  · exact Or.inr (Or.inr rfl)

/-- C6: for every tags mapping and length, the difficulty heuristic returns
exactly one of Easy, Moderate, Hard (never null); the rules are evaluated in
the fixed priority order sac_scale, then trail_visibility, then surface, then
the length fallback (&lt;2 miles Easy, &lt;5 miles Moderate, else Hard), with
Moderate as the default when no rule applies; in particular with no relevant
tags, length 6.0 gives Hard, 1.0 gives Easy, 3.0 gives Moderate. -/
theorem C6_difficulty_total_priority_fallback :
    (∀ tags len, estimate_trail_difficulty tags len = "Easy" ∨
       estimate_trail_difficulty tags len = "Moderate" ∨
       estimate_trail_difficulty tags len = "Hard") ∧
    (∀ tags len, truthyStr (tagsGet tags "sac_scale") = true →
       estimate_trail_difficulty tags len =
         classify_sac ((tagsGet tags "sac_scale").getD "")) ∧
    (∀ tags len, truthyStr (tagsGet tags "sac_scale") = false →
       truthyStr (tagsGet tags "trail_visibility") = true →
       estimate_trail_difficulty tags len =
         classify_visibility ((tagsGet tags "trail_visibility").getD "")) ∧
    (∀ tags len, truthyStr (tagsGet tags "sac_scale") = false →
       truthyStr (tagsGet tags "trail_visibility") = false →
       truthyStr (tagsGet tags "surface") = true →
       estimate_trail_difficulty tags len =
         classify_surface ((tagsGet tags "surface").getD "")) ∧
    (∀ tags (l : ℚ), truthyStr (tagsGet tags "sac_scale") = false →
       truthyStr (tagsGet tags "trail_visibility") = false →
       truthyStr (tagsGet tags "surface") = false →
       truthyLen (some l) = true →
       estimate_trail_difficulty tags (some l) =
         (if l < 2 then "Easy" else if l < 5 then "Moderate" else "Hard")) ∧
    (∀ tags len, truthyStr (tagsGet tags "sac_scale") = false →
       truthyStr (tagsGet tags "trail_visibility") = false →
       truthyStr (tagsGet tags "surface") = false →
       truthyLen len = false →
       estimate_trail_difficulty tags len = "Moderate") ∧
    (∀ tags, truthyStr (tagsGet tags "sac_scale") = false →
       truthyStr (tagsGet tags "trail_visibility") = false →
       truthyStr (tagsGet tags "surface") = false →
       estimate_trail_difficulty tags (some 6) = "Hard" ∧
       estimate_trail_difficulty tags (some 1) = "Easy" ∧
       estimate_trail_difficulty tags (some 3) = "Moderate") := by
  refine ⟨?_, ?_, ?_, ?_, ?_, ?_, ?_⟩
  · intro tags len
    unfold estimate_trail_difficulty
    split
    · exact classify_sac_cases _
    split
    · exact classify_visibility_cases _
    split
    · exact classify_surface_cases _
    split
    · exact classify_length_cases _
    · exact Or.inr (Or.inl rfl)
  · intro tags len h
    simp [estimate_trail_difficulty, h]
  · intro tags len h1 h2
    simp [estimate_trail_difficulty, h1, h2]
  · intro tags len h1 h2 h3
    simp [estimate_trail_difficulty, h1, h2, h3]
  · intro tags l h1 h2 h3 h4
    simp [estimate_trail_difficulty, classify_length, h1, h2, h3, h4]
  · intro tags len h1 h2 h3 h4
    simp [estimate_trail_difficulty, h1, h2, h3, h4]
  · intro tags h1 h2 h3
    refine ⟨?_, ?_, ?_⟩ <;>
      simp [estimate_trail_difficulty, h1, h2, h3, truthyLen, classify_length] <;>
      norm_num

/-- Witness for C6 at concrete inputs: an untagged way of length 6 miles is
Hard, and a way whose sac_scale is demanding_mountain_hiking is classified by
the sac_scale rule. -/
theorem C6_difficulty_total_priority_fallback_witness :
    estimate_trail_difficulty [] (some 6) = "Hard" ∧
    estimate_trail_difficulty [("sac_scale", "demanding_mountain_hiking")] none =
      classify_sac "demanding_mountain_hiking" :=
  ⟨((C6_difficulty_total_priority_fallback.2.2.2.2.2.2 [] (by decide) (by decide)
      (by decide)).1),
   C6_difficulty_total_priority_fallback.2.1
     [("sac_scale", "demanding_mountain_hiking")] none (by decide)⟩

/-- C10: with no alpine-scale, visibility or surface tag, an absent or zero
length skips the length rule and yields Moderate; for non-negative lengths the
Easy outcome requires a strictly positive length below 2 miles.  (Lengths in
the program are sums of haversine distances or the default `0`, hence
non-negative.) -/
theorem C10_zero_length_treated_missing :
    ∀ tags, truthyStr (tagsGet tags "sac_scale") = false →
      truthyStr (tagsGet tags "trail_visibility") = false →
      truthyStr (tagsGet tags "surface") = false →
      estimate_trail_difficulty tags none = "Moderate" ∧
      estimate_trail_difficulty tags (some 0) = "Moderate" ∧
      ∀ l : ℚ, 0 ≤ l →
        (estimate_trail_difficulty tags (some l) = "Easy" ↔ 0 < l ∧ l < 2) := by
  intro tags h1 h2 h3
  refine ⟨by simp [estimate_trail_difficulty, h1, h2, h3, truthyLen],
          by simp [estimate_trail_difficulty, h1, h2, h3, truthyLen], ?_⟩
  intro l hl
  by_cases h0 : l = 0
  · subst h0
    simp [estimate_trail_difficulty, h1, h2, h3, truthyLen]
  · have ht : truthyLen (some l) = true := by simp [truthyLen, h0]
    simp only [estimate_trail_difficulty, h1, h2, h3, ht, if_false, if_true,
      Bool.false_eq_true]
    simp only [classify_length, Option.getD_some]
    constructor
    · intro he
      by_cases hlt : l < 2
      · exact ⟨lt_of_le_of_ne hl (fun hq => h0 hq.symm), hlt⟩
      · exfalso
        by_cases hlt5 : l < 5 <;> simp [hlt, hlt5] at he
    · intro ⟨_, hlt⟩
      simp [hlt]

/-- Witness for C10 at the concrete empty tag mapping. -/
theorem C10_zero_length_treated_missing_witness :
    estimate_trail_difficulty [] (some 0) = "Moderate" :=
  (C10_zero_length_treated_missing [] (by decide) (by decide) (by decide)).2.1

/-- C8: the trail filter retains a segment iff its highway tag is path,
footway or track, or its route tag is hiking, or its foot tag is yes; the
output is a sublist of the input mapping and retained entries are unchanged. -/
theorem C8_filter_trail_ways_spec :
    ∀ ways : List (Nat × WayData),
      (filter_trail_ways ways).Sublist ways ∧
      ∀ wid wd, ((wid, wd) ∈ filter_trail_ways ways ↔
        ((wid, wd) ∈ ways ∧
          (tagsGet wd.tags "highway" = some "path" ∨
           tagsGet wd.tags "highway" = some "footway" ∨
           tagsGet wd.tags "highway" = some "track" ∨
           tagsGet wd.tags "route" = some "hiking" ∨
           tagsGet wd.tags "foot" = some "yes"))) := by
  intro ways
  refine ⟨List.filter_sublist ways, ?_⟩
  intro wid wd
  simp [filter_trail_ways, List.mem_filter, is_trail_way]
  tauto

lemma neighborsIn_append (es1 es2 : List (Nat × Nat × List (String × AttrVal)))
    (n : Nat) : neighborsIn (es1 ++ es2) n = neighborsIn es1 n ++ neighborsIn es2 n :=
  List.filterMap_append es1 es2 _

lemma neighborsIn_nil (n : Nat) : neighborsIn [] n = [] := rfl

lemma neighborsIn_cons (u v : Nat) (attrs : List (String × AttrVal))
    (es : List (Nat × Nat × List (String × AttrVal))) (n : Nat) :
    neighborsIn ((u, v, attrs) :: es) n =
      (if u = n then [v] else if v = n then [u] else []) ++ neighborsIn es n := by
  by_cases h1 : u = n
  · simp [neighborsIn, List.filterMap_cons, h1]
  · by_cases h2 : v = n <;> simp [neighborsIn, List.filterMap_cons, h1, h2]

lemma neighborsIn_chainEdges_not_mem :
    ∀ (c : List Nat) (es : List ChainEdgeInfo) (b : Nat), b ∉ c →
      neighborsIn (chainEdges c es) b = [] := by
  intro c
  induction c with
  | nil => intro es b _; cases es <;> rfl
  | cons a c' ih =>
    intro es b hb
    cases c' with
    | nil => cases es <;> rfl
    | cons a2 rest =>
      cases es with
      | nil => rfl
      | cons e es' =>
        have hba : ¬ (a = b) := fun h => hb (h ▸ List.mem_cons_self a _)
        have hba2 : ¬ (a2 = b) := fun h =>
          hb (h ▸ List.mem_cons_of_mem a (List.mem_cons_self a2 _))
        have hb' : b ∉ a2 :: rest := fun h => hb (List.mem_cons_of_mem a h)
        rw [chainEdges, neighborsIn_cons, ih es' b hb']
        simp [hba, hba2]

lemma neighborsIn_chainEdges_head :
    ∀ (b : Nat) (suf : List Nat) (es : List ChainEdgeInfo),
      (b :: suf).Nodup → suf.length ≤ es.length →
      neighborsIn (chainEdges (b :: suf) es) b = suf.head?.toList := by
  intro b suf es hn hlen
  cases suf with
  | nil => cases es <;> rfl
  | cons n suf' =>
    cases es with
    | nil => simp at hlen
    | cons e es' =>
      have hb' : b ∉ n :: suf' := (List.nodup_cons.mp hn).1
      rw [chainEdges, neighborsIn_cons, neighborsIn_chainEdges_not_mem (n :: suf') es' b hb']
      simp

lemma neighborsIn_chainEdges_last :
    ∀ (xs : List Nat) (b : Nat) (es : List ChainEdgeInfo),
      (xs ++ [b]).Nodup → xs.length ≤ es.length →
      neighborsIn (chainEdges (xs ++ [b]) es) b = xs.getLast?.toList := by
  intro xs
  induction xs with
  | nil => intro b es _ _; cases es <;> rfl
  | cons x xs' ih =>
    intro b es hn hlen
    cases es with
    | nil => simp at hlen
    | cons e es' =>
      have hxb : ¬ (x = b) := by
        intro h
        subst h
        exact (List.nodup_cons.mp hn).1 (by simp)
      cases xs' with
      | nil =>
        simp only [List.nil_append, List.cons_append, chainEdges]
        rw [neighborsIn_cons]
        simp [hxb, neighborsIn_nil]
      | cons x2 xs'' =>
        have hx2b : ¬ (x2 = b) := by
          intro h
          subst h
          exact ((List.nodup_cons.mp hn).2.not_mem (by simp)).elim
        have hrec := ih b es' (List.nodup_cons.mp hn).2
          (by simpa using Nat.le_of_succ_le_succ hlen)
        simp only [List.cons_append] at hrec ⊢
        simp only [chainEdges]
        rw [neighborsIn_cons, hrec]
        simp [hxb, hx2b, List.getLast?_cons_cons]

lemma chainEdges_append :
    ∀ (xs : List Nat) (m : Nat) (ys : List Nat) (es : List ChainEdgeInfo),
      xs.length + ys.length ≤ es.length →
      chainEdges (xs ++ m :: ys) es =
        chainEdges (xs ++ [m]) (es.take xs.length) ++
          chainEdges (m :: ys) (es.drop xs.length) := by
  intro xs
  induction xs with
  | nil =>
    intro m ys es _
    simp [chainEdges]
  | cons x xs' ih =>
    intro m ys es hlen
    cases es with
    | nil => simp at hlen
    | cons e es' =>
      cases xs' with
      | nil =>
        simp only [List.nil_append, List.cons_append, List.length_cons,
          List.length_nil, List.take_succ_cons, List.take_zero,
          List.drop_succ_cons, List.drop_zero, chainEdges]
      | cons x2 xs'' =>
        have hlen' : (x2 :: xs'').length + ys.length ≤ es'.length := by
          simp only [List.length_cons] at hlen ⊢
          omega
        have hih := ih m ys es' hlen'
        simp only [List.cons_append, List.length_cons, List.take_succ_cons,
          List.drop_succ_cons, List.append_eq, chainEdges]
        simp only [List.cons_append, List.length_cons, List.append_eq] at hih
        rw [hih]

lemma neighborsIn_chainEdges_split (pre : List Nat) (b : Nat) (suf : List Nat)
    (es : List ChainEdgeInfo) (hn : (pre ++ b :: suf).Nodup)
    (hlen : pre.length + suf.length ≤ es.length) :
    neighborsIn (chainEdges (pre ++ b :: suf) es) b =
      pre.getLast?.toList ++ suf.head?.toList := by
  have hpre : pre.length ≤ es.length := by omega
  rw [chainEdges_append pre b suf es hlen, neighborsIn_append]
  have hn1 : (pre ++ [b]).Nodup := by
    refine List.Nodup.sublist ?_ hn
    exact List.Sublist.append_left ((List.nil_sublist suf).cons₂ b) pre
  have hn2 : (b :: suf).Nodup := (List.nodup_append.mp hn).2.1
  rw [neighborsIn_chainEdges_last pre b (es.take pre.length) hn1
    (by simp [List.length_take, hpre]),
    neighborsIn_chainEdges_head b suf (es.drop pre.length) hn2
    (by simp [List.length_drop]; omega)]

lemma chainEdges_no_loop :
    ∀ (c : List Nat) (es : List ChainEdgeInfo), c.Nodup →
      ∀ e ∈ chainEdges c es, e.1 ≠ e.2.1 := by
  intro c
  induction c with
  | nil => intro es _ e he; cases es <;> simp [chainEdges] at he
  | cons a c' ih =>
    intro es hn e he
    cases c' with
    | nil => cases es <;> simp [chainEdges] at he
    | cons b rest =>
      cases es with
      | nil => simp [chainEdges] at he
      | cons e0 es' =>
        simp only [chainEdges, List.mem_cons] at he
        rcases he with h | h
        · subst h
          intro hab
          simp only at hab
          exact (List.nodup_cons.mp hn).1 (hab ▸ List.mem_cons_self b rest)
        · exact ih es' (List.nodup_cons.mp hn).2 e h

lemma countP_eq_neighborsIn_length (n : Nat) :
    ∀ es : List (Nat × Nat × List (String × AttrVal)),
      (∀ e ∈ es, e.1 ≠ e.2.1) →
      es.countP (fun e => e.1 == n) + es.countP (fun e => e.2.1 == n) =
        (neighborsIn es n).length := by
  intro es
  induction es with
  | nil => intro _; rfl
  | cons e es' ih =>
    intro h
    have he := h e (List.mem_cons_self e es')
    have hrest : ∀ e2 ∈ es', e2.1 ≠ e2.2.1 :=
      fun e2 he2 => h e2 (List.mem_cons_of_mem e he2)
    obtain ⟨u, v, attrs⟩ := e
    simp only at he
    rw [neighborsIn_cons]
    by_cases h1 : u = n
    · have h2 : ¬ (v = n) := fun hv => he (h1.trans hv.symm)
      simp only [List.countP_cons, h1, h2, if_pos, if_neg, beq_iff_eq,
        if_true, if_false, List.length_append, List.length_cons, List.length_nil]
      rw [← ih hrest]
      simp [h1, h2]
      omega
    · by_cases h2 : v = n
      · simp only [List.countP_cons, beq_iff_eq, h1, h2, List.length_append,
          List.length_cons, List.length_nil]
        rw [← ih hrest]
        simp [h1, h2]
        omega
      · simp only [List.countP_cons, beq_iff_eq, h1, h2, List.length_append]
        rw [← ih hrest]
        simp [h1, h2]

lemma degree_chainGraph (c : List Nat) (pos : Nat → ℚ × ℚ)
    (es : List ChainEdgeInfo) (n : Nat) (hn : c.Nodup) :
    degree (chainGraph c pos es) n = (neighborsIn (chainEdges c es) n).length :=
  countP_eq_neighborsIn_length n _ (chainEdges_no_loop c es hn)

lemma mem_of_getLast?_eq {l : List Nat} {a : Nat} (h : l.getLast? = some a) :
    a ∈ l := by
  cases l with
  | nil => simp at h
  | cons x xs =>
    rw [List.getLast?_eq_getLast _ (List.cons_ne_nil x xs)] at h
    exact (Option.some_inj.mp h) ▸ List.getLast_mem _

lemma find_endpoints_chain (a : Nat) (mid : List Nat) (z : Nat)
    (pos : Nat → ℚ × ℚ) (es : List ChainEdgeInfo)
    (hn : (a :: (mid ++ [z])).Nodup)
    (hlen : (a :: (mid ++ [z])).length = es.length + 1) :
    find_endpoints (chainGraph (a :: (mid ++ [z])) pos es) = [a, z] := by
  have hlen' : es.length = mid.length + 1 := by
    simp only [List.length_cons, List.length_append, List.length_nil] at hlen
    omega
  have hdega : degree (chainGraph (a :: (mid ++ [z])) pos es) a = 1 := by
    rw [degree_chainGraph _ pos es a hn]
    have hs := neighborsIn_chainEdges_split [] a (mid ++ [z]) es
      (by simpa using hn) (by simp; omega)
    simp only [List.nil_append] at hs
    rw [hs]
    cases mid <;> simp
  have hdegz : degree (chainGraph (a :: (mid ++ [z])) pos es) z = 1 := by
    rw [degree_chainGraph _ pos es z hn]
    have hrw : a :: (mid ++ [z]) = (a :: mid) ++ z :: [] := by simp
    have hn2 : ((a :: mid) ++ z :: []).Nodup := by rw [← hrw]; exact hn
    have hs := neighborsIn_chainEdges_split (a :: mid) z [] es hn2
      (by simp; omega)
    rw [show chainEdges (a :: (mid ++ [z])) es = chainEdges ((a :: mid) ++ z :: []) es
      from by rw [← hrw], hs]
    rw [List.getLast?_eq_getLast (a :: mid) (List.cons_ne_nil _ _)]
    simp
  have hdegm : ∀ x ∈ mid, degree (chainGraph (a :: (mid ++ [z])) pos es) x = 2 := by
    intro x hx
    obtain ⟨m1, m2, hsplit⟩ := List.append_of_mem hx
    have hrw : a :: (mid ++ [z]) = (a :: m1) ++ x :: (m2 ++ [z]) := by
      rw [hsplit]; simp
    have hn2 : ((a :: m1) ++ x :: (m2 ++ [z])).Nodup := by rw [← hrw]; exact hn
    have hlen2 : (a :: m1).length + (m2 ++ [z]).length ≤ es.length := by
      subst hsplit
      simp at hlen' ⊢
      omega
    have hs := neighborsIn_chainEdges_split (a :: m1) x (m2 ++ [z]) es hn2 hlen2
    rw [degree_chainGraph _ pos es x hn]
    rw [show chainEdges (a :: (mid ++ [z])) es = chainEdges ((a :: m1) ++ x :: (m2 ++ [z])) es
      from by rw [← hrw], hs]
    rw [List.getLast?_eq_getLast (a :: m1) (List.cons_ne_nil _ _)]
    cases m2 <;> simp
  have hmap : (chainGraph (a :: (mid ++ [z])) pos es).nodes.map (fun p => p.1)
      = a :: (mid ++ [z]) := by
    simp only [chainGraph, List.map_map]
    have : ((fun p => p.1) ∘ fun n =>
        (n, ({ lon := (pos n).1, lat := (pos n).2, tags := [] } : NodeData))) =
        fun n : Nat => n := rfl
    rw [this]
    exact List.map_id _
  unfold find_endpoints
  rw [hmap]
  have hmidnil : mid.filter
      (fun n => degree (chainGraph (a :: (mid ++ [z])) pos es) n == 1) = [] :=
    List.filter_eq_nil_iff.mpr (fun x hx => by simp [hdegm x hx])
  simp [List.filter_cons, List.filter_append, hdega, hdegz, hmidnil]

lemma simplePathsAux_chain (c : List Nat) (pos : Nat → ℚ × ℚ)
    (es : List ChainEdgeInfo) (hn : c.Nodup) (hlen : c.length = es.length + 1) :
    ∀ (suf pre : List Nat) (b t fuel : Nat),
      c = pre ++ b :: suf → (b :: suf).getLast? = some t →
      suf.length + 1 ≤ fuel →
      simplePathsAux (chainGraph c pos es) fuel t b pre.reverse = [b :: suf] := by
  intro suf
  induction suf with
  | nil =>
    intro pre b t fuel hc ht hf
    cases fuel with
    | zero => omega
    | succ f =>
      have hbt : b = t := by simpa using ht
      subst hbt
      simp [simplePathsAux]
  | cons n suf' ih =>
    intro pre b t fuel hc ht hf
    cases fuel with
    | zero => simp at hf
    | succ f =>
      have htm : t ∈ n :: suf' := by
        rw [List.getLast?_cons_cons] at ht
        exact mem_of_getLast?_eq ht
      have hnodup : (pre ++ b :: n :: suf').Nodup := hc ▸ hn
      have hdisj := List.nodup_append.mp hnodup
      have hbn : (b :: n :: suf').Nodup := hdisj.2.1
      have hbt : ¬ (b = t) := fun h => (List.nodup_cons.mp hbn).1 (h ▸ htm)
      have hlen2 : pre.length + (n :: suf').length ≤ es.length := by
        have hcl := congrArg List.length hc
        simp only [List.length_append, List.length_cons] at hcl
        simp only [List.length_cons]
        omega
      have hnb := neighborsIn_chainEdges_split pre b (n :: suf') es hnodup hlen2
      rw [← hc] at hnb
      have hne : (chainGraph c pos es).edges = chainEdges c es := rfl
      simp only [simplePathsAux, if_neg hbt, hne, hnb]
      have hnb' : n ∉ pre := fun hmem => hdisj.2.2 hmem (by simp)
      have hbnot : b ∉ n :: suf' := (List.nodup_cons.mp hbn).1
      have hnbne : ¬ (n = b) := fun h => hbnot (h ▸ List.mem_cons_self n suf')
      have hmemn : n ∉ b :: pre.reverse := by
        intro hmem
        rcases List.mem_cons.mp hmem with h | h
        · exact hnbne h
        · exact hnb' (List.mem_reverse.mp h)
      have hfn : (!((b :: pre.reverse).contains n)) = true := by
        simp only [Bool.not_eq_true']
        exact Bool.not_eq_true _ ▸ (by
          intro hcon
          exact hmemn (List.elem_iff.mp hcon))
      have hfilter :
          (pre.getLast?.toList ++ (n :: suf').head?.toList).filter
            (fun v => !((b :: pre.reverse).contains v)) = [n] := by
        cases hpre : pre.getLast? with
        | none =>
          simp only [Option.toList_none, List.nil_append, List.head?_cons,
            Option.toList_some, List.filter_cons, hfn, if_true, List.filter_nil]
        | some p =>
          have hp : p ∈ pre := mem_of_getLast?_eq hpre
          have hfp : (!((b :: pre.reverse).contains p)) = false := by
            simp only [Bool.not_eq_false']
            exact List.elem_iff.mpr (List.mem_cons_of_mem b (List.mem_reverse.mpr hp))
          simp only [Option.toList_some, List.head?_cons, List.cons_append,
            List.nil_append, List.filter_cons, hfp, hfn, if_true, List.filter_nil,
            Bool.false_eq_true, if_false]
      rw [hfilter]
      have hih := ih (pre ++ [b]) n t f (by rw [hc]; simp) ht
        (by simp only [List.length_cons] at hf; omega)
      rw [List.reverse_concat] at hih
      simp [hih]

lemma simplePaths_chain (a : Nat) (mid : List Nat) (z : Nat)
    (pos : Nat → ℚ × ℚ) (es : List ChainEdgeInfo)
    (hn : (a :: (mid ++ [z])).Nodup)
    (hlen : (a :: (mid ++ [z])).length = es.length + 1) :
    simplePaths (chainGraph (a :: (mid ++ [z])) pos es) a z = [a :: (mid ++ [z])] := by
  have hnodes : (chainGraph (a :: (mid ++ [z])) pos es).nodes.length
      = (a :: (mid ++ [z])).length := by
    simp [chainGraph]
  unfold simplePaths
  rw [hnodes]
  have hgl : (a :: (mid ++ [z])).getLast? = some z := by
    rw [show a :: (mid ++ [z]) = (a :: mid) ++ [z] from by simp]
    exact List.getLast?_concat _
  have := simplePathsAux_chain (a :: (mid ++ [z])) pos es hn hlen (mid ++ [z]) [] a z
    ((a :: (mid ++ [z])).length + 1) rfl hgl (by simp)
  simpa using this

lemma dictGet_map_key {β : Type} (f : Nat → β) :
    ∀ (c : List Nat) (n : Nat), n ∈ c →
      dictGet (c.map (fun x => (x, f x))) n = some (f n) := by
  intro c
  induction c with
  | nil => intro n hm; simp at hm
  | cons x c' ih =>
    intro n hm
    by_cases h : x = n
    · subst h
      simp [dictGet, List.find?_cons_of_pos]
    · rcases List.mem_cons.mp hm with h' | h'
      · exact absurd h'.symm h
      · unfold dictGet
        simp only [List.map_cons]
        rw [List.find?_cons_of_neg _ (by simpa using h)]
        exact ih n h'

lemma nodeGeo_chainGraph (c : List Nat) (pos : Nat → ℚ × ℚ)
    (es : List ChainEdgeInfo) (n : Nat) (hm : n ∈ c) :
    nodeGeo (chainGraph c pos es) n = pos n := by
  unfold nodeGeo chainGraph
  rw [dictGet_map_key (fun x =>
    ({ lon := (pos x).1, lat := (pos x).2, tags := [] } : NodeData)) c n hm]

lemma edgeDistanceL_cons_of_ne (a b2 : Nat) (attrs : List (String × AttrVal))
    (es : List (Nat × Nat × List (String × AttrVal))) (u v : Nat)
    (hu : ¬ (a = u)) (hv : ¬ (a = v)) :
    edgeDistanceL ((a, b2, attrs) :: es) u v = edgeDistanceL es u v := by
  unfold edgeDistanceL getEdgeAttrs
  rw [List.find?_cons_of_neg _ (by simp [edgeMatches, hu, hv])]

lemma edgeDistanceL_chain_head (a b2 : Nat) (e : ChainEdgeInfo)
    (es : List (Nat × Nat × List (String × AttrVal))) :
    edgeDistanceL ((a, b2, chainAttrs e) :: es) a b2 = e.w := by
  unfold edgeDistanceL getEdgeAttrs
  rw [List.find?_cons_of_pos _ (by simp [edgeMatches])]
  simp [chainAttrs, dictGet, List.find?_cons_of_pos]

lemma pathPairs_mem (path : List Nat) (uv : Nat × Nat)
    (h : uv ∈ pathPairs path) : uv.1 ∈ path ∧ uv.2 ∈ path := by
  obtain ⟨u, v⟩ := uv
  unfold pathPairs at h
  obtain ⟨h1, h2⟩ := List.of_mem_zip h
  exact ⟨h1, List.mem_of_mem_tail h2⟩

lemma sum_edgeDistance_chain :
    ∀ (c : List Nat) (es : List ChainEdgeInfo), c.Nodup →
      c.length = es.length + 1 →
      ((pathPairs c).map (fun uv => edgeDistanceL (chainEdges c es) uv.1 uv.2)).sum
        = (es.map (fun e => e.w)).sum := by
  intro c
  induction c with
  | nil => intro es _ hlen; simp at hlen
  | cons a c' ih =>
    intro es hn hlen
    cases c' with
    | nil =>
      cases es with
      | nil => simp [pathPairs]
      | cons e es' => simp at hlen
    | cons b rest =>
      cases es with
      | nil => simp at hlen
      | cons e es' =>
        have hpp : pathPairs (a :: b :: rest) = (a, b) :: pathPairs (b :: rest) := by
          simp [pathPairs]
        rw [hpp]
        simp only [List.map_cons, List.sum_cons, chainEdges]
        rw [edgeDistanceL_chain_head]
        have hna : a ∉ b :: rest := (List.nodup_cons.mp hn).1
        have hcongr : ∀ uv ∈ pathPairs (b :: rest),
            edgeDistanceL ((a, b, chainAttrs e) :: chainEdges (b :: rest) es')
              uv.1 uv.2 = edgeDistanceL (chainEdges (b :: rest) es') uv.1 uv.2 := by
          intro uv hm
          have hm2 := pathPairs_mem _ uv hm
          exact edgeDistanceL_cons_of_ne _ _ _ _ _ _
            (fun h => hna (h ▸ hm2.1)) (fun h => hna (h ▸ hm2.2))
        rw [List.map_congr_left hcongr,
          ih es' (List.nodup_cons.mp hn).2 (by simpa using hlen)]

lemma decompose_chainGraph (a : Nat) (mid : List Nat) (z : Nat)
    (pos : Nat → ℚ × ℚ) (es : List ChainEdgeInfo) (m : Nat)
    (hn : (a :: (mid ++ [z])).Nodup)
    (hlen : (a :: (mid ++ [z])).length = es.length + 1) :
    ∃ t : Trail,
      decompose_complex_network (chainGraph (a :: (mid ++ [z])) pos es) m
        = { trails := [t], pairsProcessed := 1, totalPairs := 1, warned := false } ∧
      t.coordinates = (a :: (mid ++ [z])).map pos ∧
      t.length_miles = (es.map (fun e => e.w)).sum := by
  have hsp := simplePaths_chain a mid z pos es hn hlen
  have hfind : find_path_between_endpoints (chainGraph (a :: (mid ++ [z])) pos es) a z
      = some (a :: (mid ++ [z])) := by
    unfold find_path_between_endpoints shortestPath
    rw [hsp]
    rfl
  have hlength2 : ¬ ((a :: (mid ++ [z])).length < 2) := by simp
  have hct : ∃ t : Trail,
      create_trail_from_path (chainGraph (a :: (mid ++ [z])) pos es) (a :: (mid ++ [z]))
        = some t ∧
      t.coordinates = (a :: (mid ++ [z])).map pos ∧
      t.length_miles = (es.map (fun e => e.w)).sum := by
    unfold create_trail_from_path
    rw [if_neg hlength2]
    refine ⟨_, rfl, ?_, ?_⟩
    · exact List.map_congr_left (fun n hm => nodeGeo_chainGraph _ pos es n hm)
    · exact sum_edgeDistance_chain (a :: (mid ++ [z])) es hn hlen
  obtain ⟨t, hcreate, hco, hlm⟩ := hct
  refine ⟨t, ?_, hco, hlm⟩
  unfold decompose_complex_network
  rw [find_endpoints_chain a mid z pos es hn hlen]
  simp [pairStep, hfind, hcreate]

/-- C1: for every connected component that is a single chain of `N` nodes
(exactly two degree-1 endpoint nodes), the decomposer emits exactly one
trail whose coordinate sequence lists the path's `N` nodes in order as
(longitude, latitude) pairs, and whose length is the sum of the chain's edge
weights. -/
theorem C1_simple_chain_one_trail (c : List Nat) (pos : Nat → ℚ × ℚ)
    (es : List ChainEdgeInfo) (m : Nat) (hn : c.Nodup) (h2 : 2 ≤ c.length)
    (hlen : c.length = es.length + 1) :
    ∃ t : Trail,
      (decompose_complex_network (chainGraph c pos es) m).trails = [t] ∧
      t.coordinates = c.map pos ∧
      t.coordinates.length = c.length ∧
      t.length_miles = (es.map (fun e => e.w)).sum := by
  cases c with
  | nil => simp at h2
  | cons a c' =>
    rcases List.eq_nil_or_concat c' with h | ⟨mid, z, h⟩
    · subst h; simp at h2
    · rw [List.concat_eq_append] at h
      subst h
      obtain ⟨t, hres, hco, hlm⟩ := decompose_chainGraph a mid z pos es m hn hlen
      exact ⟨t, by rw [hres], hco, by rw [hco]; simp, hlm⟩

/-- Witness for C1: a three-node chain with edge weights 1/2 and 2 yields one
trail with three coordinates and length 5/2. -/
theorem C1_simple_chain_one_trail_witness :
    ∃ t : Trail,
      (decompose_complex_network
        (chainGraph [1, 2, 3] (fun n => ((n : ℚ), 0))
          [⟨1/2, 10, []⟩, ⟨2, 10, []⟩]) 10000).trails = [t] ∧
      t.coordinates = [1, 2, 3].map (fun n => ((n : ℚ), 0)) ∧
      t.coordinates.length = 3 ∧
      t.length_miles = ([⟨1/2, 10, []⟩, ⟨2, 10, []⟩].map
        (fun e : ChainEdgeInfo => e.w)).sum :=
  C1_simple_chain_one_trail [1, 2, 3] (fun n => ((n : ℚ), 0))
    [⟨1/2, 10, []⟩, ⟨2, 10, []⟩] 10000 (by decide) (by decide) rfl

/-- C2 counterexample: the two-node single-edge component below has fewer
than 2 edges, yet the decomposer emits a trail — the source never checks the
edge count, and a one-edge component has exactly two endpoints and is handled
by the simple branch. -/
theorem C2_counterexample :
    ¬ ((chainGraph [1, 2] (fun _ => (0, 0)) [⟨5, 10, []⟩]).edges.length < 2 →
      (decompose_complex_network
        (chainGraph [1, 2] (fun _ => (0, 0)) [⟨5, 10, []⟩]) 10000).trails = []) := by
  decide

/-- C2 amended: a connected component with no edges produces no trail (zero
output, not an error); a component with exactly one edge has two endpoints
and produces exactly one trail. -/
theorem C2_trivial_amended :
    (∀ (G : Graph) (m : Nat), G.edges = [] →
      (decompose_complex_network G m).trails = []) ∧
    (∀ (u v : Nat) (pos : Nat → ℚ × ℚ) (e : ChainEdgeInfo) (m : Nat), u ≠ v →
      (decompose_complex_network (chainGraph [u, v] pos [e]) m).trails.length = 1) := by
  constructor
  · intro G m h
    have hep : find_endpoints G = [] := by
      unfold find_endpoints degree
      rw [h]
      simp
    unfold decompose_complex_network
    rw [hep]
    simp [sortAsc, allPairs, processEndpointPairs]
  · intro u v pos e m huv
    obtain ⟨t, hres, _, _⟩ :=
      decompose_chainGraph u [] v pos [e] m (by simp [huv]) (by simp)
    simp only [List.nil_append] at hres
    rw [hres]
    rfl

/-- Witness for the amended C2 at concrete components: an isolated node
yields no trail, a single-edge component yields one trail. -/
theorem C2_trivial_amended_witness :
    (decompose_complex_network
      { nodes := [(7, { lon := 0, lat := 0, tags := [] })], edges := [] }
      10000).trails = [] ∧
    (decompose_complex_network
      (chainGraph [1, 2] (fun _ => (0, 0)) [⟨5, 10, []⟩]) 10000).trails.length = 1 :=
  ⟨C2_trivial_amended.1 _ 10000 rfl,
   C2_trivial_amended.2 1 2 (fun _ => (0, 0)) ⟨5, 10, []⟩ 10000 (by decide)⟩

/-! ## The capped enumeration loop -/

lemma processEndpointPairs_spec (G : Graph) (maxPairs : Nat) :
    ∀ (pairs : List (Nat × Nat)) (k : Nat), k ≤ maxPairs →
      processEndpointPairs G maxPairs pairs k =
        ((pairs.take (maxPairs - k)).filterMap (pairStep G),
         k + min (maxPairs - k) pairs.length) := by
  intro pairs
  induction pairs with
  | nil =>
    intro k hk
    simp [processEndpointPairs]
  | cons p rest ih =>
    intro k hk
    by_cases h : maxPairs ≤ k
    · have hke : k = maxPairs := le_antisymm hk h
      subst hke
      simp [processEndpointPairs]
    · simp only [processEndpointPairs, if_neg h]
      rw [ih (k + 1) (by omega)]
      have htake : (p :: rest).take (maxPairs - k) =
          p :: rest.take (maxPairs - (k + 1)) := by
        have hs : maxPairs - k = (maxPairs - (k + 1)) + 1 := by omega
        rw [hs, List.take_succ_cons]
      rw [htake]
      have hmin : k + min (maxPairs - k) (rest.length + 1)
          = (k + 1) + min (maxPairs - (k + 1)) rest.length := by omega
      cases hstep : pairStep G p with
      | none => simp [List.filterMap_cons, hstep, List.length_cons, hmin]
      | some t => simp [List.filterMap_cons, hstep, List.length_cons, hmin]

lemma allPairs_double_length :
    ∀ l : List Nat, 2 * (allPairs l).length = l.length * (l.length - 1) := by
  intro l
  induction l with
  | nil => rfl
  | cons x xs ih =>
    have hl : (allPairs (x :: xs)).length = xs.length + (allPairs xs).length := by
      simp [allPairs]
    rw [hl]
    simp only [List.length_cons, Nat.add_sub_cancel]
    cases hx : xs.length with
    | zero =>
      rw [hx] at ih
      simp at ih
      simp [ih]
    | succ mm =>
      rw [hx] at ih
      calc 2 * (mm + 1 + (allPairs xs).length)
          = 2 * (mm + 1) + 2 * (allPairs xs).length := by ring
        _ = 2 * (mm + 1) + (mm + 1) * (mm + 1 - 1) := by rw [ih]
        _ = (mm + 1 + 1) * (mm + 1) := by simp only [Nat.add_sub_cancel]; ring

lemma insertAsc_length (x : Nat) :
    ∀ l : List Nat, (insertAsc x l).length = l.length + 1 := by
  intro l
  induction l with
  | nil => rfl
  | cons y ys ih => by_cases h : x ≤ y <;> simp [insertAsc, h, ih]

lemma sortAsc_length (l : List Nat) : (sortAsc l).length = l.length := by
  induction l with
  | nil => rfl
  | cons x xs ih =>
    show (insertAsc x (sortAsc xs)).length = xs.length + 1
    rw [insertAsc_length, ih]

lemma decompose_complex_spec (G : Graph) (m : Nat)
    (hne : (find_endpoints G).length ≠ 2) :
    decompose_complex_network G m =
      { trails := ((allPairs (sortAsc (find_endpoints G))).take m).filterMap
          (pairStep G),
        pairsProcessed := min m (allPairs (sortAsc (find_endpoints G))).length,
        totalPairs := (find_endpoints G).length * ((find_endpoints G).length - 1) / 2,
        warned := decide (m < (find_endpoints G).length
          * ((find_endpoints G).length - 1) / 2) } := by
  simp only [decompose_complex_network]
  rw [if_neg hne,
    processEndpointPairs_spec G m (allPairs (sortAsc (find_endpoints G))) 0
      (Nat.zero_le m)]
  simp

/-- C3 counterexample: a component with E = 2 endpoints and cap C = 0
satisfies E*(E-1)/2 = 1 &gt; 0 = C, but the decomposer takes the simple branch,
which ignores the cap: it processes its single endpoint pair, emits a trail,
and fires no warning — contradicting "processes exactly C pairs and emits a
warning". -/
theorem C3_counterexample :
    (find_endpoints (chainGraph [4, 5] (fun _ => (0, 0)) [⟨3, 11, []⟩])).length *
        ((find_endpoints (chainGraph [4, 5] (fun _ => (0, 0)) [⟨3, 11, []⟩])).length - 1) / 2
      = 1 ∧
    (decompose_complex_network (chainGraph [4, 5] (fun _ => (0, 0)) [⟨3, 11, []⟩])
      0).pairsProcessed = 1 ∧
    (decompose_complex_network (chainGraph [4, 5] (fun _ => (0, 0)) [⟨3, 11, []⟩])
      0).warned = false ∧
    (decompose_complex_network (chainGraph [4, 5] (fun _ => (0, 0)) [⟨3, 11, []⟩])
      0).trails.length = 1 := by
  decide

/-- C3 amended: for every component routed to the complex branch (endpoint
count different from 2) whose pair count E*(E-1)/2 exceeds the cap C, the
decomposer processes exactly C endpoint pairs, stops there, fires the cap
warning while reporting the total pair count, and still returns the trails
found among the first C pairs; with cap 0, no complex-branch pair is
processed and no trail is returned.  (The two-endpoint simple branch ignores
the cap — see the counterexample.) -/
theorem C3_cap_enforcement_amended :
    (∀ (G : Graph) (C : Nat), (find_endpoints G).length ≠ 2 →
      C < (find_endpoints G).length * ((find_endpoints G).length - 1) / 2 →
      (decompose_complex_network G C).pairsProcessed = C ∧
      (decompose_complex_network G C).warned = true ∧
      (decompose_complex_network G C).totalPairs =
        (find_endpoints G).length * ((find_endpoints G).length - 1) / 2 ∧
      (decompose_complex_network G C).trails =
        ((allPairs (sortAsc (find_endpoints G))).take C).filterMap (pairStep G)) ∧
    (∀ G : Graph, (find_endpoints G).length ≠ 2 →
      (decompose_complex_network G 0).pairsProcessed = 0 ∧
      (decompose_complex_network G 0).trails = []) := by
  have hlen : ∀ G : Graph, (allPairs (sortAsc (find_endpoints G))).length =
      (find_endpoints G).length * ((find_endpoints G).length - 1) / 2 := by
    intro G
    have h2 := allPairs_double_length (sortAsc (find_endpoints G))
    rw [sortAsc_length] at h2
    omega
  constructor
  · intro G C hne hcap
    rw [decompose_complex_spec G C hne]
    have hCle : C ≤ (allPairs (sortAsc (find_endpoints G))).length := by
      rw [hlen G]
      omega
    exact ⟨by simp [min_eq_left hCle], by simp [hcap], rfl, rfl⟩
  · intro G hne
    rw [decompose_complex_spec G 0 hne]
    simp

/-- Witness for the amended C3: on the Y component (3 endpoints, 3 pairs)
with cap 1 exactly one pair is processed and the warning fires; with cap 0
no trail is produced. -/
theorem C3_cap_enforcement_amended_witness :
    (decompose_complex_network yGraph 1).pairsProcessed = 1 ∧
    (decompose_complex_network yGraph 1).warned = true ∧
    (decompose_complex_network yGraph 0).trails = [] :=
  ⟨(C3_cap_enforcement_amended.1 yGraph 1 (by decide) (by decide)).1,
   (C3_cap_enforcement_amended.1 yGraph 1 (by decide) (by decide)).2.1,
   (C3_cap_enforcement_amended.2 yGraph (by decide)).2⟩

/-- C9: trail assembly returns null exactly for paths of fewer than 2 nodes
(otherwise the trail has one coordinate per path node, hence at least 2); a
shortest-path query with no connecting path returns null instead of raising
(the caught exception); and in the complex branch the returned trail list is
the filterMap of the processed pairs, so a failed pair is skipped while the
remaining pairs are still processed. -/
theorem C9_error_handling :
    (∀ (G : Graph) (path : List Nat), path.length < 2 →
      create_trail_from_path G path = none) ∧
    (∀ (G : Graph) (path : List Nat), 2 ≤ path.length →
      ∃ t : Trail, create_trail_from_path G path = some t ∧
        t.coordinates.length = path.length ∧ 2 ≤ t.coordinates.length) ∧
    (∀ (G : Graph) (s t : Nat), simplePaths G s t = [] →
      find_path_between_endpoints G s t = none) ∧
    (∀ (G : Graph) (m : Nat), (find_endpoints G).length ≠ 2 →
      (decompose_complex_network G m).trails =
        ((allPairs (sortAsc (find_endpoints G))).take m).filterMap (pairStep G)) := by
  refine ⟨?_, ?_, ?_, ?_⟩
  · intro G path h
    unfold create_trail_from_path
    rw [if_pos h]
  · intro G path h
    unfold create_trail_from_path
    rw [if_neg (by omega)]
    refine ⟨_, rfl, by simp, ?_⟩
    simp only [List.length_map]
    omega
  · intro G s t h
    unfold find_path_between_endpoints shortestPath
    rw [h]
    rfl
  · intro G m hne
    rw [decompose_complex_spec G m hne]

/-- Witness for C9 at concrete inputs: a one-node path assembles to null, a
two-node path to a two-coordinate trail; node 99 is unreachable from node 1
in the Y component, and the capped complex decomposition of the Y component
equals the filterMap over its first two sorted endpoint pairs. -/
theorem C9_error_handling_witness :
    create_trail_from_path yGraph [9] = none ∧
    (∃ t : Trail, create_trail_from_path yGraph [1, 4] = some t ∧
      t.coordinates.length = 2 ∧ 2 ≤ t.coordinates.length) ∧
    find_path_between_endpoints yGraph 1 99 = none ∧
    (decompose_complex_network yGraph 2).trails =
      ((allPairs (sortAsc (find_endpoints yGraph))).take 2).filterMap
        (pairStep yGraph) :=
  ⟨C9_error_handling.1 yGraph [9] (by decide),
   C9_error_handling.2.1 yGraph [1, 4] (by decide),
   C9_error_handling.2.2.1 yGraph 1 99 (by decide),
   C9_error_handling.2.2.2 yGraph 2 (by decide)⟩

/-! ## Graph construction: node set and last-write semantics -/

lemma addEdge_nodes (G : Graph) (u v : Nat) (d : ℚ) (wid : Nat)
    (tags : List (String × String)) : (addEdge G u v d wid tags).nodes = G.nodes := by
  unfold addEdge
  split <;> rfl

lemma foldl_nodes_invariant {α : Type} (f : Graph → α → Graph)
    (hf : ∀ G x, (f G x).nodes = G.nodes) :
    ∀ (l : List α) (G : Graph), (l.foldl f G).nodes = G.nodes := by
  intro l
  induction l with
  | nil => intro G; rfl
  | cons x rest ih =>
    intro G
    simp only [List.foldl_cons]
    rw [ih, hf]

lemma addWayEdges_nodes (dist : ℚ → ℚ → ℚ → ℚ → ℚ) (G : Graph) (wid : Nat)
    (w : WayData) : (addWayEdges dist G wid w).nodes = G.nodes := by
  unfold addWayEdges
  split
  · rfl
  · apply foldl_nodes_invariant
    intro G2 uv
    by_cases h : (hasNode G2 uv.1 && hasNode G2 uv.2) = true
    · simp [h, addEdge_nodes]
    · simp [h]

lemma foldl_dictInsert_eq_self :
    ∀ (nodes acc : List (Nat × NodeData)),
      (acc.map (fun p => p.1) ++ nodes.map (fun p => p.1)).Nodup →
      nodes.foldl (fun a p => dictInsert a p.1 p.2) acc = acc ++ nodes := by
  intro nodes
  induction nodes with
  | nil => intro acc _; simp
  | cons p rest ih =>
    intro acc hnd
    have hnot : ¬ (acc.any (fun q => q.1 = p.1) = true) := by
      intro hany
      obtain ⟨q, hq, hq1⟩ := List.any_eq_true.mp hany
      have hq1' : q.1 = p.1 := by simpa using hq1
      have hmem1 : p.1 ∈ acc.map (fun r => r.1) :=
        List.mem_map.mpr ⟨q, hq, hq1'⟩
      have hmem2 : p.1 ∈ (p :: rest).map (fun r => r.1) := by simp
      exact (List.nodup_append.mp hnd).2.2 hmem1 hmem2
    simp only [List.foldl_cons]
    rw [show dictInsert acc p.1 p.2 = acc ++ [(p.1, p.2)] from by
      unfold dictInsert; rw [if_neg hnot]]
    have hnd2 : ((acc ++ [(p.1, p.2)]).map (fun r => r.1)
        ++ rest.map (fun r => r.1)).Nodup := by
      simp only [List.map_append, List.map_cons, List.map_nil] at hnd ⊢
      simpa [List.append_assoc] using hnd
    rw [ih (acc ++ [(p.1, p.2)]) hnd2]
    simp

/-- C4 counterexample: with a single input point and no retained segments,
graph construction still puts the point into the node set, so a graph node
need not lie on any retained segment. -/
theorem C4_counterexample :
    ¬ (∀ n ∈ ((create_graph_from_osm_elements (fun _ _ _ _ => 0)
        [(7, { lon := 1, lat := 2, tags := [] })] []).nodes.map (fun p => p.1)),
       ∃ wp ∈ ([] : List (Nat × WayData)), n ∈ wp.2.nodes) := by
  intro h
  rcases h 7 (by decide) with ⟨wp, hwp, _⟩
  simp at hwp

/-- C4 amended: after graph construction the node set equals exactly the key
set of the input point mapping — every input point becomes a node, whether or
not a retained segment references it — and dangling segment endpoints absent
from the point mapping never appear in the node set. -/
theorem C4_nodes_amended (dist : ℚ → ℚ → ℚ → ℚ → ℚ)
    (nodes : List (Nat × NodeData)) (ways : List (Nat × WayData))
    (hnd : (nodes.map (fun p => p.1)).Nodup) :
    (create_graph_from_osm_elements dist nodes ways).nodes = nodes ∧
    (∀ n : Nat, hasNode (create_graph_from_osm_elements dist nodes ways) n = true
      ↔ n ∈ nodes.map (fun p => p.1)) := by
  have hbase : (create_graph_from_osm_elements dist nodes ways).nodes = nodes := by
    show ((ways.foldl (fun G wp => addWayEdges dist G wp.1 wp.2)
      { nodes := nodes.foldl (fun acc p => dictInsert acc p.1 p.2) [],
        edges := [] }).nodes) = nodes
    rw [foldl_nodes_invariant (fun G wp => addWayEdges dist G wp.1 wp.2)
      (fun G wp => addWayEdges_nodes dist G wp.1 wp.2) ways]
    simpa using foldl_dictInsert_eq_self nodes [] (by simpa using hnd)
  refine ⟨hbase, ?_⟩
  intro n
  unfold hasNode
  rw [hbase]
  simp [List.any_eq_true, List.mem_map]

/-- Witness for the amended C4: two points and a way referencing point 1 and
the dangling identity 3 — the node set is exactly the two input points. -/
theorem C4_nodes_amended_witness :
    (create_graph_from_osm_elements (fun _ _ _ _ => 0)
      [(1, { lon := 0, lat := 0, tags := [] }),
       (2, { lon := 1, lat := 0, tags := [] })]
      [(10, { nodes := [1, 3], tags := [] })]).nodes =
      [(1, { lon := 0, lat := 0, tags := [] }),
       (2, { lon := 1, lat := 0, tags := [] })] :=
  (C4_nodes_amended (fun _ _ _ _ => 0)
    [(1, { lon := 0, lat := 0, tags := [] }),
     (2, { lon := 1, lat := 0, tags := [] })]
    [(10, { nodes := [1, 3], tags := [] })] (by decide)).1

lemma find?_key_map {α β : Type} [DecidableEq α] (a : α) (v : β) (k : α) :
    ∀ d : List (α × β),
      (d.map (fun p => if p.1 = a then (a, v) else p)).find? (fun p => p.1 = k) =
        (d.find? (fun p => p.1 = k)).map (fun p => if p.1 = a then (a, v) else p) := by
  intro d
  induction d with
  | nil => rfl
  | cons q rest ih =>
    have hkey : ((if q.1 = a then (a, v) else q).1 = k) ↔ (q.1 = k) := by
      by_cases hqa : q.1 = a
      · simp [hqa]
      · simp [hqa]
    by_cases hq : q.1 = k
    · rw [List.map_cons, List.find?_cons_of_pos _ (by simpa using hkey.mpr hq),
        List.find?_cons_of_pos _ (by simpa using hq)]
      rfl
    · rw [List.map_cons, List.find?_cons_of_neg _ (by simpa using fun h => hq (hkey.mp h)),
        List.find?_cons_of_neg _ (by simpa using hq)]
      exact ih

lemma dictGet_dictInsert {α β : Type} [DecidableEq α] (d : List (α × β))
    (a : α) (v : β) (k : α) :
    dictGet (dictInsert d a v) k = if a = k then some v else dictGet d k := by
  unfold dictInsert dictGet
  by_cases hany : d.any (fun p => p.1 = a) = true
  · rw [if_pos hany, find?_key_map]
    by_cases hk : a = k
    · subst hk
      cases hfind : d.find? (fun p => (p.1 = a : Bool)) with
      | none =>
        exfalso
        obtain ⟨q, hq, hq1⟩ := List.any_eq_true.mp hany
        exact absurd hq1 (by simpa using List.find?_eq_none.mp hfind q hq)
      | some r =>
        have hr : r.1 = a := by simpa using List.find?_some hfind
        simp [hr]
    · cases hfind : d.find? (fun p => (p.1 = k : Bool)) with
      | none => simp [hk]
      | some r =>
        have hr : r.1 = k := by simpa using List.find?_some hfind
        have hra : ¬ (r.1 = a) := fun h => hk (h.symm.trans hr)
        simp [hk, hra]
  · rw [if_neg hany, List.find?_append]
    by_cases hk : a = k
    · subst hk
      have hnone : d.find? (fun p => (p.1 = a : Bool)) = none :=
        List.find?_eq_none.mpr (fun x hx hpx =>
          hany (List.any_eq_true.mpr ⟨x, hx, hpx⟩))
      simp [hnone]
    · cases hfind : d.find? (fun p => (p.1 = k : Bool)) with
      | none => simp [hfind, hk, fun h : a = k => hk h]
      | some r => simp [hfind, hk]

lemma dictGet_dictUpdate {α β : Type} [DecidableEq α] :
    ∀ (kvs d : List (α × β)) (k : α),
      dictGet (dictUpdate d kvs) k = (lastVal kvs k).or (dictGet d k) := by
  intro kvs
  induction kvs with
  | nil => intro d k; rfl
  | cons p kvs' ih =>
    intro d k
    show dictGet (dictUpdate (dictInsert d p.1 p.2) kvs') k = _
    rw [ih]
    have hlast : lastVal (p :: kvs') k =
        (lastVal kvs' k).or (if p.1 = k then some p.2 else none) := by
      unfold lastVal
      rw [List.reverse_cons, List.find?_append]
      cases kvs'.reverse.find? (fun q => (q.1 = k : Bool)) with
      | none =>
        by_cases hp : p.1 = k
        · rw [List.find?_cons_of_pos _ (by simpa using hp)]
          simp [hp]
        · rw [List.find?_cons_of_neg _ (by simpa using hp)]
          simp [hp]
      | some r => simp
    rw [hlast, dictGet_dictInsert]
    cases lastVal kvs' k with
    | none =>
      by_cases hp : p.1 = k
      · simp [hp]
      · simp [hp, fun h : p.1 = k => hp h]
    | some w2 => simp

lemma find?_edge_map (u v : Nat)
    (g : List (String × AttrVal) → List (String × AttrVal)) :
    ∀ es : List (Nat × Nat × List (String × AttrVal)),
      (es.map (fun e => if edgeMatches u v e then (e.1, e.2.1, g e.2.2) else e)).find?
          (edgeMatches u v) =
        (es.find? (edgeMatches u v)).map (fun e => (e.1, e.2.1, g e.2.2)) := by
  intro es
  induction es with
  | nil => rfl
  | cons e rest ih =>
    have hkey : edgeMatches u v (if edgeMatches u v e then (e.1, e.2.1, g e.2.2) else e)
        = edgeMatches u v e := by
      by_cases he : edgeMatches u v e = true
      · rw [if_pos he, he]
        simpa [edgeMatches] using he
      · rw [if_neg he]
    by_cases he : edgeMatches u v e = true
    · rw [List.map_cons, List.find?_cons_of_pos _ (hkey.trans he),
        List.find?_cons_of_pos _ he, if_pos he]
      rfl
    · rw [List.map_cons,
        List.find?_cons_of_neg _ (by rw [hkey]; exact he),
        List.find?_cons_of_neg _ he]
      exact ih

/-- C5 counterexample: two segments cover the node pair {1, 2}; the later
segment (way 20, tagged highway=path only) wins per key — its way identity
overwrites the edge's — but the earlier segment's surface=dirt tag, absent
from way 20, still remains on the edge, refuting "no tag key from an earlier
segment remains". -/
theorem C5_counterexample :
    dictGet ((getEdgeAttrs (create_graph_from_osm_elements (fun _ _ _ _ => 5)
        [(1, { lon := 0, lat := 0, tags := [] }),
         (2, { lon := 1, lat := 0, tags := [] })]
        [(10, { nodes := [1, 2], tags := [("surface", "dirt")] }),
         (20, { nodes := [1, 2], tags := [("highway", "path")] })]).edges
        1 2).getD []) "surface" = some (AttrVal.str "dirt") ∧
    dictGet ((getEdgeAttrs (create_graph_from_osm_elements (fun _ _ _ _ => 5)
        [(1, { lon := 0, lat := 0, tags := [] }),
         (2, { lon := 1, lat := 0, tags := [] })]
        [(10, { nodes := [1, 2], tags := [("surface", "dirt")] }),
         (20, { nodes := [1, 2], tags := [("highway", "path")] })]).edges
        1 2).getD []) "way_id" = some (AttrVal.num 20) ∧
    ¬ ("surface" ∈ ([("highway", "path")] : List (String × String)).map
        (fun p => p.1)) := by
  decide

/-- C5 amended: when `add_edge` covers an already-present node pair, the new
attribute list is merged into the existing edge dictionary per key
(networkx `datadict.update`): the new segment's distance, identity and tag
values overwrite matching keys — the last assignment of each key wins — but
a key set by an earlier segment and absent from the new attribute list keeps
its old value on the edge. -/
theorem C5_last_segment_wins_amended (G : Graph) (u v : Nat) (d : ℚ)
    (wid : Nat) (tags : List (String × String)) (ed : List (String × AttrVal))
    (hed : getEdgeAttrs G.edges u v = some ed) :
    getEdgeAttrs (addEdge G u v d wid tags).edges u v
      = some (dictUpdate ed (edgeAttrList d wid tags)) ∧
    (∀ k, dictGet (dictUpdate ed (edgeAttrList d wid tags)) k =
      (lastVal (edgeAttrList d wid tags) k).or (dictGet ed k)) ∧
    (∀ k, lastVal (edgeAttrList d wid tags) k = none →
      dictGet (dictUpdate ed (edgeAttrList d wid tags)) k = dictGet ed k) := by
  refine ⟨?_, fun k => dictGet_dictUpdate _ ed k, fun k hk => by
    rw [dictGet_dictUpdate _ ed k, hk]; rfl⟩
  obtain ⟨e0, hfind, hee⟩ : ∃ e0, G.edges.find? (edgeMatches u v) = some e0 ∧
      e0.2.2 = ed := by
    unfold getEdgeAttrs at hed
    cases hf : G.edges.find? (edgeMatches u v) with
    | none => rw [hf] at hed; simp at hed
    | some e0 =>
      rw [hf] at hed
      exact ⟨e0, rfl, by simpa using hed⟩
  have hany : G.edges.any (edgeMatches u v) = true :=
    List.any_eq_true.mpr ⟨e0, List.mem_of_find?_eq_some hfind,
      List.find?_some hfind⟩
  unfold addEdge
  rw [if_pos hany]
  unfold getEdgeAttrs
  rw [find?_edge_map u v (fun attrs => dictUpdate attrs (edgeAttrList d wid tags))
    G.edges, hfind]
  simp [hee]

/-- Witness for the amended C5 on a concrete edge dictionary: adding way 20
over the existing pair {1, 2} overwrites distance and way_id but keeps the
earlier surface=dirt entry. -/
theorem C5_last_segment_wins_amended_witness :
    getEdgeAttrs (addEdge
      { nodes := [(1, { lon := 0, lat := 0, tags := [] }),
                  (2, { lon := 1, lat := 0, tags := [] })],
        edges := [(1, 2, [("distance", AttrVal.num 5), ("way_id", AttrVal.num 10),
                          ("surface", AttrVal.str "dirt")])] }
      1 2 7 20 [("highway", "path")]).edges 1 2
      = some (dictUpdate
          [("distance", AttrVal.num 5), ("way_id", AttrVal.num 10),
           ("surface", AttrVal.str "dirt")]
          (edgeAttrList 7 20 [("highway", "path")])) ∧
    dictGet (dictUpdate
        [("distance", AttrVal.num 5), ("way_id", AttrVal.num 10),
         ("surface", AttrVal.str "dirt")]
        (edgeAttrList 7 20 [("highway", "path")])) "surface"
      = dictGet [("distance", AttrVal.num 5), ("way_id", AttrVal.num 10),
                 ("surface", AttrVal.str "dirt")] "surface" :=
  ⟨(C5_last_segment_wins_amended
      { nodes := [(1, { lon := 0, lat := 0, tags := [] }),
                  (2, { lon := 1, lat := 0, tags := [] })],
        edges := [(1, 2, [("distance", AttrVal.num 5), ("way_id", AttrVal.num 10),
                          ("surface", AttrVal.str "dirt")])] }
      1 2 7 20 [("highway", "path")]
      [("distance", AttrVal.num 5), ("way_id", AttrVal.num 10),
       ("surface", AttrVal.str "dirt")] rfl).1,
   (C5_last_segment_wins_amended
      { nodes := [(1, { lon := 0, lat := 0, tags := [] }),
                  (2, { lon := 1, lat := 0, tags := [] })],
        edges := [(1, 2, [("distance", AttrVal.num 5), ("way_id", AttrVal.num 10),
                          ("surface", AttrVal.str "dirt")])] }
      1 2 7 20 [("highway", "path")]
      [("distance", AttrVal.num 5), ("way_id", AttrVal.num 10),
       ("surface", AttrVal.str "dirt")] rfl).2.2 "surface" (by decide)⟩

lemma collect_nested_eq (G : Graph) :
    ∀ (l : List (Nat × Nat)) (acc : List (String × List AttrVal)),
      l.foldl (fun acc2 uv => (edgeTagItems G uv.1 uv.2).foldl
        (fun a p => appendTagVal a p.1 p.2) acc2) acc =
      collectStream acc (l.flatMap (fun uv => edgeTagItems G uv.1 uv.2)) := by
  intro l
  induction l with
  | nil => intro acc; rfl
  | cons uv rest ih =>
    intro acc
    rw [List.flatMap_cons]
    show rest.foldl _ ((edgeTagItems G uv.1 uv.2).foldl
      (fun a p => appendTagVal a p.1 p.2) acc) = _
    rw [ih]
    unfold collectStream
    rw [List.foldl_append]

lemma find?_map_keep_key {α β : Type} [DecidableEq α] (g : (α × β) → (α × β))
    (hg : ∀ p, (g p).1 = p.1) (k : α) :
    ∀ d : List (α × β),
      (d.map g).find? (fun p => p.1 = k) = (d.find? (fun p => p.1 = k)).map g := by
  intro d
  induction d with
  | nil => rfl
  | cons q rest ih =>
    by_cases hq : q.1 = k
    · rw [List.map_cons, List.find?_cons_of_pos _ (by simpa [hg] using hq),
        List.find?_cons_of_pos _ (by simpa using hq)]
      rfl
    · rw [List.map_cons, List.find?_cons_of_neg _ (by simpa [hg] using hq),
        List.find?_cons_of_neg _ (by simpa using hq)]
      exact ih

lemma find?_appendTagVal (acc : List (String × List AttrVal)) (k1 : String)
    (v1 : AttrVal) (k : String) :
    (appendTagVal acc k1 v1).find? (fun p => p.1 = k) =
      if k1 = k then
        match acc.find? (fun p => p.1 = k) with
        | some q => some (q.1, q.2 ++ [v1])
        | none => some (k1, [v1])
      else acc.find? (fun p => p.1 = k) := by
  unfold appendTagVal
  by_cases hany : acc.any (fun p => p.1 = k1) = true
  · rw [if_pos hany,
      find?_map_keep_key (fun p => if p.1 = k1 then (p.1, p.2 ++ [v1]) else p)
        (fun p => by by_cases h : p.1 = k1 <;> simp [h]) k acc]
    by_cases hk : k1 = k
    · subst hk
      cases hfind : acc.find? (fun p => (p.1 = k1 : Bool)) with
      | none =>
        exfalso
        obtain ⟨q, hq, hq1⟩ := List.any_eq_true.mp hany
        exact absurd hq1 (by simpa using List.find?_eq_none.mp hfind q hq)
      | some q =>
        have hqk : q.1 = k1 := by simpa using List.find?_some hfind
        simp [hqk]
    · cases hfind : acc.find? (fun p => (p.1 = k : Bool)) with
      | none => simp [hk]
      | some q =>
        have hqk : q.1 = k := by simpa using List.find?_some hfind
        have hq1 : ¬ (q.1 = k1) := fun h => hk (h.symm.trans hqk)
        simp [hk, hq1]
  · rw [if_neg hany, List.find?_append]
    by_cases hk : k1 = k
    · subst hk
      have hnone : acc.find? (fun p => (p.1 = k1 : Bool)) = none :=
        List.find?_eq_none.mpr (fun x hx hpx =>
          hany (List.any_eq_true.mpr ⟨x, hx, hpx⟩))
      simp [hnone]
    · cases hfind : acc.find? (fun p => (p.1 = k : Bool)) with
      | none => simp [hfind, hk]
      | some q => simp [hfind, hk]

lemma streamValues_cons (k1 : String) (v1 : AttrVal)
    (s : List (String × AttrVal)) (k : String) :
    streamValues ((k1, v1) :: s) k =
      if k1 = k then v1 :: streamValues s k else streamValues s k := by
  unfold streamValues
  by_cases h : k1 = k
  · rw [List.filter_cons_of_pos (by simpa using h), if_pos h]
    rfl
  · rw [List.filter_cons_of_neg (by simpa using h), if_neg h]

lemma find?_collectStream :
    ∀ (s : List (String × AttrVal)) (acc : List (String × List AttrVal)) (k : String),
      (collectStream acc s).find? (fun p => p.1 = k) =
        match acc.find? (fun p => p.1 = k) with
        | some q => some (q.1, q.2 ++ streamValues s k)
        | none => if streamValues s k = [] then none
                  else some (k, streamValues s k) := by
  intro s
  induction s with
  | nil =>
    intro acc k
    show acc.find? _ = _
    cases hfind : acc.find? (fun p => (p.1 = k : Bool)) with
    | none => simp [streamValues]
    | some q => simp [streamValues]
  | cons p s' ih =>
    intro acc k
    obtain ⟨k1, v1⟩ := p
    show (collectStream (appendTagVal acc k1 v1) s').find? _ = _
    rw [ih (appendTagVal acc k1 v1) k, find?_appendTagVal acc k1 v1 k,
      streamValues_cons]
    by_cases hk : k1 = k
    · rw [if_pos hk, if_pos hk]
      cases hfind : acc.find? (fun p => (p.1 = k : Bool)) with
      | none => simp [hk]
      | some q => simp
    · rw [if_neg hk, if_neg hk]

lemma keys_appendTagVal (acc : List (String × List AttrVal)) (k1 : String)
    (v1 : AttrVal) :
    (appendTagVal acc k1 v1).map (fun p => p.1) =
      if acc.any (fun p => p.1 = k1) then acc.map (fun p => p.1)
      else acc.map (fun p => p.1) ++ [k1] := by
  unfold appendTagVal
  by_cases hany : acc.any (fun p => p.1 = k1) = true
  · rw [if_pos hany, if_pos hany, List.map_map]
    exact List.map_congr_left (fun p _ => by by_cases h : p.1 = k1 <;> simp [h])
  · rw [if_neg hany, if_neg hany]
    simp

lemma keys_nodup_collectStream :
    ∀ (s : List (String × AttrVal)) (acc : List (String × List AttrVal)),
      ((acc.map (fun p => p.1)).Nodup) →
      ((collectStream acc s).map (fun p => p.1)).Nodup := by
  intro s
  induction s with
  | nil => intro acc h; exact h
  | cons p s' ih =>
    intro acc h
    show ((collectStream (appendTagVal acc p.1 p.2) s').map _).Nodup
    apply ih
    rw [keys_appendTagVal]
    by_cases hany : acc.any (fun q => q.1 = p.1) = true
    · rw [if_pos hany]
      exact h
    · rw [if_neg hany]
      have hnot : p.1 ∉ acc.map (fun q => q.1) := by
        intro hmem
        obtain ⟨q, hq, hq1⟩ := List.mem_map.mp hmem
        exact hany (List.any_eq_true.mpr ⟨q, hq, by simpa using hq1⟩)
      simp [List.nodup_append, h, hnot]

lemma keys_resolveTags :
    ∀ tl : List (String × List AttrVal), ∀ k : String,
      (∀ q ∈ tl, ¬ (q.1 = k)) → (resolveTags tl).find? (fun p => p.1 = k) = none := by
  intro tl
  induction tl with
  | nil => intro k _; rfl
  | cons q rest ih =>
    intro k hk
    obtain ⟨k1, vs⟩ := q
    have hk1 : ¬ (k1 = k) := by simpa using hk (k1, vs) (List.mem_cons_self _ _)
    have hrest := fun q2 hq2 => hk q2 (List.mem_cons_of_mem _ hq2)
    show ((if vs.isEmpty then resolveTags rest
        else match maxByCount (valueCounts vs) with
          | some v => (k1, v) :: resolveTags rest
          | none => resolveTags rest).find? (fun p => (p.1 = k : Bool))) = none
    by_cases hvs : vs.isEmpty
    · rw [if_pos hvs]
      exact ih k hrest
    · rw [if_neg hvs]
      cases maxByCount (valueCounts vs) with
      | none => exact ih k hrest
      | some v =>
        rw [List.find?_cons_of_neg _ (by simpa using hk1)]
        exact ih k hrest

lemma dictGet_resolveTags :
    ∀ tl : List (String × List AttrVal), ((tl.map (fun p => p.1)).Nodup) →
      ∀ k : String, dictGet (resolveTags tl) k =
        match tl.find? (fun p => p.1 = k) with
        | some q => if q.2.isEmpty then none else maxByCount (valueCounts q.2)
        | none => none := by
  intro tl
  induction tl with
  | nil => intro _ k; rfl
  | cons q rest ih =>
    intro hnd k
    obtain ⟨k1, vs⟩ := q
    have hndmap : (k1 :: rest.map (fun p => p.1)).Nodup := by simpa using hnd
    have hk1mem : k1 ∉ rest.map (fun p => p.1) := (List.nodup_cons.mp hndmap).1
    have hndrest : (rest.map (fun p => p.1)).Nodup := (List.nodup_cons.mp hndmap).2
    by_cases hk : k1 = k
    · subst hk
      rw [List.find?_cons_of_pos _ (by simp)]
      have hnone : (resolveTags rest).find? (fun p => (p.1 = k1 : Bool)) = none := by
        apply keys_resolveTags
        intro q2 hq2 hq2k
        exact hk1mem (List.mem_map.mpr ⟨q2, hq2, hq2k⟩)
      show dictGet (if vs.isEmpty then _ else _) k1 = _
      by_cases hvs : vs.isEmpty
      · rw [if_pos hvs]
        unfold dictGet
        rw [hnone]
        simp [hvs]
      · rw [if_neg hvs]
        cases hmax : maxByCount (valueCounts vs) with
        | none =>
          unfold dictGet
          rw [hnone]
          simp [hvs, hmax]
        | some v =>
          unfold dictGet
          rw [List.find?_cons_of_pos _ (by simp)]
          simp [hvs, hmax]
    · rw [List.find?_cons_of_neg _ (by simpa using hk)]
      show dictGet (if vs.isEmpty then _ else _) k = _
      by_cases hvs : vs.isEmpty
      · rw [if_pos hvs]
        exact ih hndrest k
      · rw [if_neg hvs]
        cases hmax : maxByCount (valueCounts vs) with
        | none => exact ih hndrest k
        | some v =>
          unfold dictGet
          rw [List.find?_cons_of_neg _ (by simpa using hk)]
          exact ih hndrest k

lemma mem_firstOccs : ∀ (vs : List AttrVal) (v : AttrVal),
    v ∈ firstOccs vs ↔ v ∈ vs := by
  intro vs
  induction vs with
  | nil => intro v; rfl
  | cons x vs' ih =>
    intro v
    unfold firstOccs
    by_cases h : v = x
    · subst h
      simp
    · simp only [List.mem_cons, List.mem_filter]
      constructor
      · rintro (h2 | ⟨h2, _⟩)
        · exact Or.inl h2
        · exact Or.inr ((ih v).mp h2)
      · rintro (h2 | h2)
        · exact Or.inl h2
        · exact Or.inr ⟨(ih v).mpr h2, by simpa using h⟩

lemma nodup_firstOccs : ∀ vs : List AttrVal, (firstOccs vs).Nodup := by
  intro vs
  induction vs with
  | nil => exact List.nodup_nil
  | cons x vs' ih =>
    unfold firstOccs
    refine List.nodup_cons.mpr ⟨?_, List.Nodup.filter _ ih⟩
    intro hmem
    have hcon := (List.mem_filter.mp hmem).2
    simp at hcon

lemma firstOccs_append_not_mem :
    ∀ (p : List AttrVal) (v : AttrVal), v ∉ p →
      firstOccs (p ++ [v]) = firstOccs p ++ [v] := by
  intro p
  induction p with
  | nil => intro v _; rfl
  | cons x p' ih =>
    intro v hv
    have hvx : ¬ (v = x) := fun h => hv (h ▸ List.mem_cons_self x p')
    have hvp : v ∉ p' := fun h => hv (List.mem_cons_of_mem x h)
    show x :: (firstOccs (p' ++ [v])).filter (fun w => w ≠ x) =
      (x :: (firstOccs p').filter (fun w => w ≠ x)) ++ [v]
    rw [ih v hvp, List.filter_append]
    simp [hvx]

lemma firstOccs_append_mem :
    ∀ (p : List AttrVal) (v : AttrVal), v ∈ p →
      firstOccs (p ++ [v]) = firstOccs p := by
  intro p
  induction p with
  | nil => intro v hv; simp at hv
  | cons x p' ih =>
    intro v hv
    show x :: (firstOccs (p' ++ [v])).filter (fun w => w ≠ x) =
      x :: (firstOccs p').filter (fun w => w ≠ x)
    by_cases hveq : v = x
    · subst hveq
      by_cases hvp : v ∈ p'
      · rw [ih v hvp]
      · rw [firstOccs_append_not_mem p' v hvp, List.filter_append]
        simp
    · have hvp : v ∈ p' := by
        rcases List.mem_cons.mp hv with h | h
        · exact absurd h hveq
        · exact h
      rw [ih v hvp]

lemma bumpCount_step (p : List AttrVal) (v : AttrVal) :
    bumpCount ((firstOccs p).map (fun w => (w, p.count w))) v =
      (firstOccs (p ++ [v])).map (fun w => (w, (p ++ [v]).count w)) := by
  by_cases hv : v ∈ p
  · have hany : ((firstOccs p).map (fun w => (w, p.count w))).any
        (fun q => q.1 = v) = true :=
      List.any_eq_true.mpr ⟨(v, p.count v),
        List.mem_map.mpr ⟨v, (mem_firstOccs p v).mpr hv, rfl⟩, by simp⟩
    unfold bumpCount
    rw [if_pos hany, firstOccs_append_mem p v hv, List.map_map]
    apply List.map_congr_left
    intro w _
    by_cases hwv : w = v
    · subst hwv
      simp [List.count_append, List.count_singleton]
    · simp [hwv, List.count_append, List.count_singleton,
        show ¬ (v == w) = true from by simpa using fun h : v = w => hwv h.symm]
  · have hany : ¬ (((firstOccs p).map (fun w => (w, p.count w))).any
        (fun q => q.1 = v) = true) := by
      intro hc
      obtain ⟨q, hq, hq1⟩ := List.any_eq_true.mp hc
      obtain ⟨w, hw, hwq⟩ := List.mem_map.mp hq
      have : w = v := by
        have := hq1
        rw [← hwq] at this
        simpa using this
      exact hv (this ▸ (mem_firstOccs p w).mp hw)
    unfold bumpCount
    rw [if_neg hany, firstOccs_append_not_mem p v hv, List.map_append]
    have h1 : (firstOccs p).map (fun w => (w, (p ++ [v]).count w)) =
        (firstOccs p).map (fun w => (w, p.count w)) := by
      apply List.map_congr_left
      intro w hw
      have hwv : ¬ (v == w) = true := by
        simpa using fun h : v = w => hv (h ▸ (mem_firstOccs p w).mp hw)
      simp [List.count_append, List.count_singleton, hwv]
    rw [h1]
    have h2 : (p ++ [v]).count v = 1 := by
      rw [List.count_append, List.count_eq_zero.mpr hv, List.count_singleton]
      simp
    simp [h2, List.count_eq_zero.mpr hv]

lemma foldl_bumpCount_invariant :
    ∀ (l p : List AttrVal),
      l.foldl bumpCount ((firstOccs p).map (fun w => (w, p.count w))) =
        (firstOccs (p ++ l)).map (fun w => (w, (p ++ l).count w)) := by
  intro l
  induction l with
  | nil => intro p; simp
  | cons v l' ih =>
    intro p
    rw [List.foldl_cons, bumpCount_step p v, ih (p ++ [v])]
    simp [List.append_assoc]

lemma valueCounts_eq (vs : List AttrVal) :
    valueCounts vs = (firstOccs vs).map (fun w => (w, vs.count w)) := by
  have h := foldl_bumpCount_invariant vs []
  simpa [valueCounts] using h

lemma firstOccs_pairwise_indexOf :
    ∀ vs : List AttrVal,
      (firstOccs vs).Pairwise (fun a b => vs.indexOf a < vs.indexOf b) := by
  intro vs
  induction vs with
  | nil => exact List.Pairwise.nil
  | cons x vs' ih =>
    unfold firstOccs
    refine List.pairwise_cons.mpr ⟨?_, ?_⟩
    · intro b hb
      have hbx : ¬ (b = x) := by simpa using (List.mem_filter.mp hb).2
      have hxb : x ≠ b := fun h => hbx h.symm
      rw [List.indexOf_cons_self, List.indexOf_cons_ne _ hxb]
      exact Nat.succ_pos _
    · have hfil := List.Pairwise.filter (fun w => (w ≠ x : Bool)) ih
      refine List.Pairwise.imp_of_mem ?_ hfil
      intro a b ha hb hab
      have hax : ¬ (a = x) := by simpa using (List.mem_filter.mp ha).2
      have hbx : ¬ (b = x) := by simpa using (List.mem_filter.mp hb).2
      rw [List.indexOf_cons_ne _ (fun h => hax h.symm),
        List.indexOf_cons_ne _ (fun h => hbx h.symm)]
      exact Nat.succ_lt_succ hab

lemma maxFold_spec :
    ∀ (cs : List (AttrVal × Nat)) (b : AttrVal × Nat),
      ∃ r, cs.foldl (fun best p =>
          match best with
          | none => some p
          | some b2 => if b2.2 < p.2 then some p else some b2) (some b) = some r ∧
        (∃ l1 l2, b :: cs = l1 ++ r :: l2 ∧ ∀ q ∈ l1, q.2 < r.2) ∧
        (∀ q ∈ b :: cs, q.2 ≤ r.2) := by
  intro cs
  induction cs with
  | nil =>
    intro b
    exact ⟨b, rfl, ⟨[], [], rfl, by simp⟩, by simp⟩
  | cons p cs' ih =>
    intro b
    by_cases h : b.2 < p.2
    · obtain ⟨r, hr, ⟨l1, l2, hsplit, hlt⟩, hmax⟩ := ih p
      have hpr : p.2 ≤ r.2 := hmax p (List.mem_cons_self p cs')
      refine ⟨r, by simpa [h] using hr, ⟨b :: l1, l2, ?_, ?_⟩, ?_⟩
      · rw [List.cons_append, ← hsplit]
      · intro q hq
        rcases List.mem_cons.mp hq with h2 | h2
        · exact h2 ▸ lt_of_lt_of_le h hpr
        · exact hlt q h2
      · intro q hq
        rcases List.mem_cons.mp hq with h2 | h2
        · exact h2 ▸ le_of_lt (lt_of_lt_of_le h hpr)
        · exact hmax q h2
    · obtain ⟨r, hr, ⟨l1, l2, hsplit, hlt⟩, hmax⟩ := ih b
      have hple : p.2 ≤ b.2 := Nat.le_of_not_lt h
      have hbr : b.2 ≤ r.2 := hmax b (List.mem_cons_self b cs')
      refine ⟨r, by simpa [h] using hr, ?_, ?_⟩
      · cases l1 with
        | nil =>
          have hbreq : b = r ∧ cs' = l2 := by
            have := hsplit
            simp only [List.nil_append, List.cons.injEq] at this
            exact this
          refine ⟨[], p :: cs', ?_, by simp⟩
          rw [List.nil_append, hbreq.1]
        | cons x l1' =>
          have hx : x = b ∧ cs' = l1' ++ r :: l2 := by
            have := hsplit
            simp only [List.cons_append, List.cons.injEq] at this
            exact ⟨this.1.symm, this.2⟩
          have hbl1 : b ∈ x :: l1' := hx.1 ▸ List.mem_cons_self x l1'
          have hblt : b.2 < r.2 := hlt b hbl1
          refine ⟨b :: p :: l1', l2, ?_, ?_⟩
          · simp only [List.cons_append, List.cons.injEq, true_and]
            exact hx.2
          · intro q hq
            rcases List.mem_cons.mp hq with h2 | h2
            · exact h2 ▸ hblt
            · rcases List.mem_cons.mp h2 with h3 | h3
              · exact h3 ▸ lt_of_le_of_lt hple hblt
              · exact hlt q (hx.1 ▸ List.mem_cons_of_mem x h3)
      · intro q hq
        rcases List.mem_cons.mp hq with h2 | h2
        · exact h2 ▸ hbr
        · rcases List.mem_cons.mp h2 with h3 | h3
          · exact h3 ▸ le_trans hple hbr
          · exact hmax q (List.mem_cons_of_mem b h3)

lemma maxByCount_spec (cs : List (AttrVal × Nat)) (hne : cs ≠ []) :
    ∃ r : AttrVal × Nat, maxByCount cs = some r.1 ∧
      (∃ l1 l2, cs = l1 ++ r :: l2 ∧ ∀ q ∈ l1, q.2 < r.2) ∧
      (∀ q ∈ cs, q.2 ≤ r.2) := by
  cases cs with
  | nil => exact absurd rfl hne
  | cons b cs' =>
    obtain ⟨r, hr, hsplit, hmax⟩ := maxFold_spec cs' b
    refine ⟨r, ?_, hsplit, hmax⟩
    unfold maxByCount
    rw [List.foldl_cons]
    show (cs'.foldl _ (some b)).map (fun p => p.1) = some r.1
    rw [hr]
    rfl

lemma maxByCount_valueCounts_iff (vs : List AttrVal) (hne : vs ≠ [])
    (v : AttrVal) :
    maxByCount (valueCounts vs) = some v ↔ IsMajorityFirst vs v := by
  have hcs := valueCounts_eq vs
  have hfone : firstOccs vs ≠ [] := by
    cases vs with
    | nil => exact absurd rfl hne
    | cons x vs' => simp [firstOccs]
  have hcsne : valueCounts vs ≠ [] := by
    rw [hcs]
    simpa using hfone
  obtain ⟨r, hmx, ⟨l1, l2, hsplit, hlt⟩, hmax⟩ :=
    maxByCount_spec (valueCounts vs) hcsne
  have hsplit2 : l1 ++ r :: l2 = (firstOccs vs).map (fun w => (w, vs.count w)) := by
    rw [← hsplit, hcs]
  obtain ⟨o1, o2', ho, ho1, ho2'⟩ := List.append_eq_map_iff.mp hsplit2
  cases o2' with
  | nil => simp at ho2'
  | cons w0 o2 =>
    rw [List.map_cons] at ho2'
    have hrw : (w0, vs.count w0) = r := (List.cons.injEq _ _ _ _).mp ho2' |>.1
    have hw0r : r = (w0, vs.count w0) := hrw.symm
    have hw0mem : w0 ∈ vs := (mem_firstOccs vs w0).mp
      (ho ▸ List.mem_append_right o1 (List.mem_cons_self _ _))
    have hmaxall : ∀ w ∈ vs, vs.count w ≤ vs.count w0 := by
      intro w hw
      have hwin : (w, vs.count w) ∈ valueCounts vs := by
        rw [hcs]
        exact List.mem_map.mpr ⟨w, (mem_firstOccs vs w).mpr hw, rfl⟩
      have hle := hmax _ hwin
      rw [hw0r] at hle
      simpa using hle
    have hpw := firstOccs_pairwise_indexOf vs
    rw [ho] at hpw
    have hpw2 := (List.pairwise_append.mp hpw).2.1
    have hw0lt : ∀ b ∈ o2, vs.indexOf w0 < vs.indexOf b :=
      (List.pairwise_cons.mp hpw2).1
    have ho1lt : ∀ w ∈ o1, vs.count w < vs.count w0 := by
      intro w hw
      have hwin : (w, vs.count w) ∈ l1 := by
        rw [← ho1]
        exact List.mem_map.mpr ⟨w, hw, rfl⟩
      have hle := hlt _ hwin
      rw [hw0r] at hle
      simpa using hle
    constructor
    · intro h
      have hv : v = w0 := by
        have h2 := hmx.symm.trans h
        rw [hw0r] at h2
        exact (Option.some_inj.mp h2).symm
      rw [hv]
      refine ⟨hw0mem, hmaxall, ?_⟩
      intro w hw hcnt
      have hwf : w ∈ o1 ++ w0 :: o2 := ho ▸ (mem_firstOccs vs w).mpr hw
      rcases List.mem_append.mp hwf with h1 | h1
      · exact absurd hcnt (by have := ho1lt w h1; omega)
      · rcases List.mem_cons.mp h1 with h2 | h2
        · rw [h2]
        · exact le_of_lt (hw0lt w h2)
    · intro himf
      obtain ⟨hmem, hmaxv, htie⟩ := himf
      have hcnteq : vs.count w0 = vs.count v :=
        le_antisymm (hmaxv w0 hw0mem) (hmaxall v hmem)
      have hv : v = w0 := by
        by_contra hvr
        have hvf : v ∈ o1 ++ w0 :: o2 := ho ▸ (mem_firstOccs vs v).mpr hmem
        rcases List.mem_append.mp hvf with h1 | h1
        · have := ho1lt v h1
          omega
        · rcases List.mem_cons.mp h1 with h2 | h2
          · exact hvr h2
          · have h3 := hw0lt v h2
            have h4 := htie w0 hw0mem hcnteq
            omega
      rw [hmx, hw0r, hv]

lemma create_trail_tags (G : Graph) (path : List Nat) (t : Trail)
    (h : create_trail_from_path G path = some t) :
    t.tags = resolveTags (collectStream [] (edgeTagStream G path)) := by
  unfold create_trail_from_path at h
  by_cases hlen : path.length < 2
  · rw [if_pos hlen] at h
    exact absurd h (by simp)
  · rw [if_neg hlen] at h
    have h2 := Option.some_inj.mp h
    rw [← h2]
    show resolveTags ((pathPairs path).foldl (fun acc uv =>
      (edgeTagItems G uv.1 uv.2).foldl (fun a p => appendTagVal a p.1 p.2) acc) []) = _
    rw [collect_nested_eq G (pathPairs path) []]
    rfl

lemma tagValues_reserved (G : Graph) (path : List Nat) :
    tagValues G path "distance" = [] ∧ tagValues G path "way_id" = [] := by
  have hgen : ∀ k : String, (k = "distance" ∨ k = "way_id") →
      tagValues G path k = [] := by
    intro k hk
    unfold tagValues streamValues
    rw [List.filter_eq_nil_iff.mpr ?_, List.map_nil]
    intro p hp
    obtain ⟨uv, _, hpe⟩ := List.mem_flatMap.mp hp
    have hres := (List.mem_filter.mp hpe).2
    simp only [Bool.not_or, Bool.and_eq_true, Bool.not_eq_true', beq_eq_false_iff_ne,
      ne_eq] at hres
    rcases hk with hk | hk <;> subst hk <;> simp [hres.1, hres.2]
  exact ⟨hgen "distance" (Or.inl rfl), hgen "way_id" (Or.inr rfl)⟩

lemma dictGet_trail_tags (G : Graph) (path : List Nat) (t : Trail)
    (h : create_trail_from_path G path = some t) (k : String) :
    dictGet t.tags k =
      if tagValues G path k = [] then none
      else maxByCount (valueCounts (tagValues G path k)) := by
  rw [create_trail_tags G path t h,
    dictGet_resolveTags _ (keys_nodup_collectStream _ [] (by simp)) k,
    find?_collectStream (edgeTagStream G path) [] k]
  rw [show ([] : List (String × List AttrVal)).find?
    (fun p => (p.1 = k : Bool)) = none from rfl]
  unfold tagValues
  by_cases hv : streamValues (edgeTagStream G path) k = []
  · rw [if_pos hv, if_pos hv]
  · rw [if_neg hv, if_neg hv]
    show (if (streamValues (edgeTagStream G path) k).isEmpty = true then none
      else maxByCount (valueCounts (streamValues (edgeTagStream G path) k)))
      = maxByCount (valueCounts (streamValues (edgeTagStream G path) k))
    rw [if_neg (by simpa using hv)]

/-- C7: for every path, each non-bookkeeping tag key appearing on an edge of
the path resolves to the value with the highest occurrence count among the
key's values in path order, ties broken by earliest first occurrence; the
bookkeeping keys distance and way_id never appear in the resolved mapping;
and on the concrete chain whose edges carry surface values gravel, gravel,
dirt, surface resolves to gravel. -/
theorem C7_tag_majority_resolution :
    (∀ (G : Graph) (path : List Nat) (t : Trail),
      create_trail_from_path G path = some t →
      dictGet t.tags "distance" = none ∧
      dictGet t.tags "way_id" = none ∧
      ∀ (k : String) (v : AttrVal),
        (dictGet t.tags k = some v ↔ IsMajorityFirst (tagValues G path k) v)) ∧
    ((create_trail_from_path gravelChain [1, 2, 3, 4]).map
        (fun t => dictGet t.tags "surface") = some (some (AttrVal.str "gravel")) ∧
     tagValues gravelChain [1, 2, 3, 4] "surface" =
       [AttrVal.str "gravel", AttrVal.str "gravel", AttrVal.str "dirt"]) := by
  constructor
  · intro G path t h
    refine ⟨?_, ?_, ?_⟩
    · rw [dictGet_trail_tags G path t h "distance",
        if_pos (tagValues_reserved G path).1]
    · rw [dictGet_trail_tags G path t h "way_id",
        if_pos (tagValues_reserved G path).2]
    · intro k v
      rw [dictGet_trail_tags G path t h k]
      by_cases hv : tagValues G path k = []
      · rw [if_pos hv]
        simp [IsMajorityFirst, hv]
      · rw [if_neg hv]
        exact maxByCount_valueCounts_iff _ hv v
  · exact ⟨by decide, by decide⟩

/-- Witness for C7: the general statement applied to the gravel/gravel/dirt
chain — its trail record carries no bookkeeping key, and surface = gravel
satisfies the majority-first characterization. -/
theorem C7_tag_majority_resolution_witness :
    dictGet ({ coordinates := [1, 2, 3, 4].map (fun n => nodeGeo gravelChain n),
               length_miles := ((pathPairs [1, 2, 3, 4]).map
                 (fun uv => edgeDistance gravelChain uv.1 uv.2)).sum,
               tags := resolveTags (collectStream [] (edgeTagStream gravelChain [1, 2, 3, 4])),
               name := none,
               highway := none } : Trail).tags "distance" = none ∧
    IsMajorityFirst (tagValues gravelChain [1, 2, 3, 4] "surface")
      (AttrVal.str "gravel") := by
  have hcreate : create_trail_from_path gravelChain [1, 2, 3, 4] =
      some { coordinates := [1, 2, 3, 4].map (fun n => nodeGeo gravelChain n),
             length_miles := ((pathPairs [1, 2, 3, 4]).map
               (fun uv => edgeDistance gravelChain uv.1 uv.2)).sum,
             tags := resolveTags (collectStream [] (edgeTagStream gravelChain [1, 2, 3, 4])),
             name := dictGet (resolveTags (collectStream []
               (edgeTagStream gravelChain [1, 2, 3, 4]))) "name",
             highway := dictGet (resolveTags (collectStream []
               (edgeTagStream gravelChain [1, 2, 3, 4]))) "highway" } := by
    unfold create_trail_from_path
    rw [if_neg (by decide)]
    rw [collect_nested_eq gravelChain (pathPairs [1, 2, 3, 4]) []]
    rfl
  have hcreate2 : create_trail_from_path gravelChain [1, 2, 3, 4] =
      some { coordinates := [1, 2, 3, 4].map (fun n => nodeGeo gravelChain n),
             length_miles := ((pathPairs [1, 2, 3, 4]).map
               (fun uv => edgeDistance gravelChain uv.1 uv.2)).sum,
             tags := resolveTags (collectStream [] (edgeTagStream gravelChain [1, 2, 3, 4])),
             name := none,
             highway := none } := by
    rw [hcreate]
    have hname : dictGet (resolveTags (collectStream []
        (edgeTagStream gravelChain [1, 2, 3, 4]))) "name" = none := by decide
    have hhighway : dictGet (resolveTags (collectStream []
        (edgeTagStream gravelChain [1, 2, 3, 4]))) "highway" = none := by decide
    rw [hname, hhighway]
  refine ⟨(C7_tag_majority_resolution.1 gravelChain [1, 2, 3, 4] _ hcreate2).1, ?_⟩
  have hiff := (C7_tag_majority_resolution.1 gravelChain [1, 2, 3, 4] _
    hcreate2).2.2 "surface" (AttrVal.str "gravel")
  exact hiff.mp (by decide)

end Hiking
